import Mathlib

/-!
Verification of the MiniVue framework (src/miniVue.ts) against its
natural-language specification.

The development shallowly embeds the four subsystems the claims touch:

* the routing system (`findRoute`, `navigate`, miniVue.ts lines 457-510),
  as pure functions over an explicit router state;
* the application bootstrap (`mount`, lines 543-651), as a state-passing
  model that records the side effects the error-handling claims are about
  (state-factory invocations, DOM mutations, listener registrations,
  the mounted flag);
* the virtual-DOM reconciler (`createElement`, `updateProps`,
  `updateElement`, `updateChildren`, lines 120-284), over an explicit
  DOM-node tree, with JavaScript truthiness of `VNode | string` values
  modelled explicitly (the empty string and `undefined` are falsy);
* the reactivity core (`track`, `trigger`, `reactive`, `effect`,
  lines 25-100), as a fueled interpreter over a small statement language
  for effect bodies, with the proxy wrapper chains, the dependency map
  keyed by target identity, and the single global active-effect slot all
  explicit.

Machine integers do not occur; all JavaScript values the claims exercise
are strings, small naturals and object references.
-/

namespace MiniVue

/-! ## Association-list helpers (used by every state model) -/

/-- Lookup in an association list keyed by strings. -/
def aget {α : Type} : List (String × α) → String → Option α
  | [], _ => none
  | (k, v) :: r, k' => if k = k' then some v else aget r k'

/-- Update-or-append in an association list keyed by strings, keeping the
position of an existing key (JavaScript object property order). -/
def aset {α : Type} : List (String × α) → String → α → List (String × α)
  | [], k, v => [(k, v)]
  | (k0, v0) :: r, k, v =>
    if k0 = k then (k0, v) :: r else (k0, v0) :: aset r k v

/-- Remove a key from an association list (first occurrence). -/
def adel {α : Type} : List (String × α) → String → List (String × α)
  | [], _ => []
  | (k0, v0) :: r, k =>
    if k0 = k then r else (k0, v0) :: adel r k

/-! ## Routing system (miniVue.ts lines 457-510) -/

/-- A route table entry (miniVue.ts lines 425-428); the component function
is abstracted to an identifier, since route resolution never calls it. -/
structure Route where
  path : String
  comp : Nat
deriving DecidableEq, Repr

/-- Route resolution (miniVue.ts lines 460-463):
`routes.find(route => route.path === path) || routes.find(route => route.path === "*")`.
`Array.find` returns the first match or `undefined`; a `Route` object is
always truthy, so `||` takes the wildcard lookup exactly when the exact
lookup found nothing. -/
def findRoute (routes : List Route) (path : String) : Option Route :=
  match routes.find? (fun route => route.path == path) with
  | some r => some r
  | none => routes.find? (fun route => route.path == "*")

/-- Modelled from the words of the specification, for comparison with
`findRoute`: the first route whose path exactly equals the current path;
else the first route whose path is the literal wildcard; else nothing. -/
def findRouteSpec (routes : List Route) (path : String) : Option Route :=
  match (routes.filter (fun route => route.path == path)).head? with
  | some r => some r
  | none => (routes.filter (fun route => route.path == "*")).head?

/-- Router state as the `navigate` closure sees it (miniVue.ts lines
466-499): the reactive `currentPath`, the `isNavigating` guard, plus the
observable history pushes and the count of reactive-state writes. -/
structure RouterSt where
  currentPath : String
  isNavigating : Bool
  pushes : List String
  mutations : Nat
deriving DecidableEq, Repr

/-- Navigation (miniVue.ts lines 487-500): no-op when a navigation is in
flight or the path equals the current path; otherwise set the guard, push
to host history, and write the reactive `currentPath` (one reactive
mutation).  The `setTimeout` that clears the guard is fire-and-forget and
is modelled by the separate `clearNavGuard`. -/
def navigate (s : RouterSt) (path : String) : RouterSt :=
  if s.isNavigating || s.currentPath == path then s
  else
    { currentPath := path
      isNavigating := true
      pushes := s.pushes ++ [path]
      mutations := s.mutations + 1 }

/-- The deferred `isNavigating = false` from the `setTimeout` callback
(miniVue.ts lines 497-499); in immediate succession it has not yet run. -/
def clearNavGuard (s : RouterSt) : RouterSt :=
  { s with isNavigating := false }

/-! ## Application bootstrap (miniVue.ts lines 536-679)

The mount model records the side effects the error-handling claims talk
about.  The DOM diffing done by a successful render is collapsed to a
mutation counter; everything on the failure paths follows the statement
order of the source. -/

/-- The configuration shape that matters to `mount` (miniVue.ts lines
519-523): whether a render function and whether a router were supplied.
The `data` factory is tracked by an invocation counter in the instance. -/
structure MConfig where
  hasRender : Bool
  hasRouter : Bool
deriving DecidableEq, Repr

/-- Observable state of one `createApp` instance plus the globals it
touches (miniVue.ts lines 536-541, 443). -/
structure MApp where
  mounted : Bool
  rootSet : Bool
  stateAllocs : Nat
  globalRouterSet : Bool
  listeners : Nat
  domMutations : Nat
  cleanupSet : Bool
  activeStuck : Bool
deriving DecidableEq, Repr

/-- A fresh instance as `createApp` returns it. -/
def freshApp : MApp :=
  { mounted := false, rootSet := false, stateAllocs := 0
    globalRouterSet := false, listeners := 0, domMutations := 0
    cleanupSet := false, activeStuck := false }

/-- The configuration-error message thrown by the render effect
(miniVue.ts line 589). -/
def cfgErrMsg : String := "Either render function or router must be provided"

/-- Mount (miniVue.ts lines 543-651), in source statement order: the
double-mount check, the container lookup, then `root`/`mounted` are set,
then `reactive(config.data())` allocates state, then the global router is
set when configured, and finally `effect(render)` runs the render body
once.  With neither render nor router the body throws `cfgErrMsg` out of
`effect` before touching the DOM, leaving the active-effect slot set and
`cleanupEffect` unassigned; a successful first render commits to the DOM
and installs the cleanup flag. -/
def mountM (cfg : MConfig) (a : MApp) (selector : String)
    (containerExists : Bool) : MApp × Option String :=
  if a.mounted then (a, some "App is already mounted")
  else if !containerExists then (a, some ("Container not found: " ++ selector))
  else
    let a1 : MApp := { a with rootSet := true, mounted := true }
    let a2 : MApp := { a1 with stateAllocs := a1.stateAllocs + 1 }
    let a3 : MApp :=
      if cfg.hasRouter then { a2 with globalRouterSet := true } else a2
    if cfg.hasRouter || cfg.hasRender then
      ({ a3 with domMutations := a3.domMutations + 1, cleanupSet := true }, none)
    else
      ({ a3 with activeStuck := true }, some cfgErrMsg)

end MiniVue

namespace MiniVue

/-! ## Virtual DOM (miniVue.ts lines 109-310)

`VNode | string` values are modelled by `VN`; the `undefined` produced by
out-of-range child access is `Option.none`; JavaScript truthiness of such
a value (`!oldNode`, `!newNode`) is `falsyO`: `undefined` and the empty
string are falsy, every object and every non-empty string is truthy.
Prop values are strings or functions (functions carry an identity). -/

/-- A prop value: a string attribute value or an event-handler function,
identified by a numeric identity (JavaScript compares handlers by
reference). -/
inductive PV where
  | pstr (s : String)
  | pfun (id : Nat)
deriving DecidableEq, Repr

/-- A virtual node (miniVue.ts lines 109-114); `vs` is a bare text leaf,
`ve` an element.  The structurally present `key` prop lives inside the
prop list, as in the source. -/
inductive VN where
  | vs (s : String)
  | ve (tag : String) (props : List (String × PV)) (children : List VN)
deriving Repr

/-- A live DOM node: a text node or an element carrying its tag, its
attributes, its attached event listeners, the handler references stored on
the element under `_onX` names, the input `value` property, the selection
range, and its child nodes. -/
inductive Dom where
  | dtext (s : String)
  | del (tag : String) (attrs : List (String × String))
      (listeners : List (String × Nat)) (stored : List (String × Nat))
      (ivalue : String) (selS selE : Option Nat) (children : List Dom)
deriving Repr

/-- JavaScript truthiness of a `VNode | string | undefined` value:
`undefined` and the empty string are falsy. -/
def falsyO : Option VN → Bool
  | none => true
  | some (VN.vs s) => s == ""
  | some (VN.ve _ _ _) => false

/-- Children of a live node (`parent.childNodes`). -/
def childrenOf : Dom → List Dom
  | Dom.dtext _ => []
  | Dom.del _ _ _ _ _ _ _ cs => cs

/-- Replace the child list of a live element. -/
def setChildren : Dom → List Dom → Dom
  | Dom.dtext s, _ => Dom.dtext s
  | Dom.del tag attrs ls st iv sS sE _, cs => Dom.del tag attrs ls st iv sS sE cs

/-- Assigning `textContent` (miniVue.ts line 145): on a text node it
replaces the text; on an element it replaces the children with a single
text node (none when the string is empty). -/
def setTextContent (d : Dom) (s : String) : Dom :=
  match d with
  | Dom.dtext _ => Dom.dtext s
  | Dom.del tag attrs ls st iv sS sE _ =>
      Dom.del tag attrs ls st iv sS sE (if s = "" then [] else [Dom.dtext s])

/-- Is a prop value a function (`typeof value === "function"`). -/
def isFn : PV → Bool
  | PV.pfun _ => true
  | PV.pstr _ => false

/-- Handler identity of a function prop. -/
def fnId : PV → Nat
  | PV.pfun i => i
  | PV.pstr _ => 0

/-- JavaScript `String(value)` on a prop value. -/
def strOfP : PV → String
  | PV.pstr s => s
  | PV.pfun i => "function " ++ toString i

/-- The prop-relevant mutable surface of a live element, used while the
prop loops of `createElement` and `updateProps` run. -/
structure EProps where
  attrs : List (String × String)
  listeners : List (String × Nat)
  stored : List (String × Nat)
  ivalue : String
  selS : Option Nat
  selE : Option Nat
deriving Repr

/-- A fresh element surface (a text input starts with an empty value). -/
def emptyEProps : EProps := ⟨[], [], [], "", none, none⟩

/-- `addEventListener`: registering the same (event, handler) pair twice
is a no-op in the DOM. -/
def addListener (ls : List (String × Nat)) (ev : String) (h : Nat) :
    List (String × Nat) :=
  if (ev, h) ∈ ls then ls else ls ++ [(ev, h)]

/-- `removeEventListener`: detaches the first matching registration. -/
def removeListener (ls : List (String × Nat)) (ev : String) (h : Nat) :
    List (String × Nat) :=
  ls.eraseP (fun x => x.1 == ev && x.2 == h)

/-- One step of the prop loop of `createElement` (miniVue.ts lines
262-275): skip `key`; attach handler props and store the reference under
the `_onX` name; assign a text-input `value` directly; set every other
prop as a string attribute. -/
def applyCreateProp (tag : String) (e : EProps) (kv : String × PV) : EProps :=
  let k := kv.1
  if k = "key" then e
  else if k.startsWith "on" && isFn kv.2 then
    { e with listeners := addListener e.listeners ((k.drop 2).toLower) (fnId kv.2)
             stored := aset e.stored k (fnId kv.2) }
  else if k = "value" && tag.toLower = "input" then
    { e with ivalue := strOfP kv.2 }
  else
    { e with attrs := aset e.attrs k (strOfP kv.2) }

/-- `createElement` (miniVue.ts lines 253-284): materialize a live node
from a virtual node, recursively. -/
def createElement : VN → Dom
  | VN.vs s => Dom.dtext s
  | VN.ve tag props children =>
      let e := props.foldl (applyCreateProp tag) emptyEProps
      Dom.del tag e.attrs e.listeners e.stored e.ivalue e.selS e.selE
        (createChildrenList children)
where
  /-- The `vnode.children.forEach(child => element.appendChild(...))`
  loop. -/
  createChildrenList : List VN → List Dom
    | [] => []
    | c :: cs => createElement c :: createChildrenList cs

/-- One step of the removal loop of `updateProps` (miniVue.ts lines
179-193): a key of `oldProps` absent from `newProps` is removed; handler
props are detached via the stored reference and the stored name deleted;
the `key` prop is skipped; everything else is removed as an attribute. -/
def removeOldProp (newProps : List (String × PV)) (e : EProps)
    (kv : String × PV) : EProps :=
  let k := kv.1
  if (aget newProps k).isSome then e
  else if k.startsWith "on" then
    match aget e.stored k with
    | some h =>
        { e with listeners := removeListener e.listeners ((k.drop 2).toLower) h
                 stored := adel e.stored k }
    | none => e
  else if k = "key" then e
  else { e with attrs := adel e.attrs k }

/-- One step of the add loop of `updateProps` (miniVue.ts lines 196-232):
skip `key`; reattach a handler only when the reference changed; write a
changed text-input value directly, preserving the selection range; set
every other changed prop as a string attribute (changed by strict
comparison against `oldProps`, where a missing old entry is undefined). -/
def addNewProp (tag : String) (oldProps : List (String × PV)) (e : EProps)
    (kv : String × PV) : EProps :=
  let k := kv.1
  let v := kv.2
  if k = "key" then e
  else if k.startsWith "on" && isFn v then
    let ev := (k.drop 2).toLower
    match aget e.stored k with
    | some oldH =>
        if oldH ≠ fnId v then
          { e with listeners := addListener (removeListener e.listeners ev oldH) ev (fnId v)
                   stored := aset e.stored k (fnId v) }
        else e
    | none =>
        { e with listeners := addListener e.listeners ev (fnId v)
                 stored := aset e.stored k (fnId v) }
  else if aget oldProps k ≠ some v then
    if k = "value" && tag.toLower = "input" then
      if e.ivalue ≠ strOfP v then
        let e1 : EProps :=
          { e with ivalue := strOfP v
                   selS := some (strOfP v).length, selE := some (strOfP v).length }
        match e.selS, e.selE with
        | some a, some b => { e1 with selS := some a, selE := some b }
        | _, _ => e1
      else e
    else { e with attrs := aset e.attrs k (strOfP v) }
  else e

/-- `updateProps` (miniVue.ts lines 173-233): the removal loop over the
old props, then the add loop over the new props, applied to the element
surface; the child list is untouched. -/
def updateProps (d : Dom) (newProps oldProps : List (String × PV)) : Dom :=
  match d with
  | Dom.dtext s => Dom.dtext s
  | Dom.del tag attrs ls st iv sS sE cs =>
      let e0 : EProps := ⟨attrs, ls, st, iv, sS, sE⟩
      let e1 := oldProps.foldl (removeOldProp newProps) e0
      let e2 := newProps.foldl (addNewProp tag oldProps) e1
      Dom.del tag e2.attrs e2.listeners e2.stored e2.ivalue e2.selS e2.selE cs

/-- Replace-or-append (miniVue.ts lines 153-158): `replaceChild` at the
index when a live child exists there, otherwise `appendChild`. -/
def replaceAt (parent : Dom) (index : Nat) (d : Dom) : Dom :=
  setChildren parent
    (if index < (childrenOf parent).length then (childrenOf parent).set index d
     else childrenOf parent ++ [d])

/-- The two mutually recursive reconciliation entry points, as one fueled
call type: a single-position `updateElement` call and the index loop of
`updateChildren`. -/
inductive UCall where
  | uElem (parent : Dom) (newNode oldNode : Option VN) (index : Nat)
  | uKids (parent : Dom) (newChildren oldChildren : List VN) (i : Nat)

/-- The reconciler (miniVue.ts lines 120-168 and 238-248), structurally
recursive on fuel (fuel bounds the nesting depth; `none` means the fuel
ran out or `createElement` was reached with `undefined`, which throws in
JavaScript).  `uElem` follows the five cases of `updateElement` in source
order: absent old node appends a fresh node; falsy new node removes the
child at the index if present; two text leaves update the text in place
when it changed; a kind or tag mismatch replaces (or appends when no child
exists at the index); two elements with equal tags update props then
recurse into the children.  `uKids` is the positional loop over
`0 .. max(len new, len old) - 1`, reading both lists by index (undefined
beyond their length) and removing by current child index. -/
def upd : Nat → UCall → Option Dom
  | 0, _ => none
  | fuel + 1, UCall.uElem parent newNode oldNode index =>
    let cs := childrenOf parent
    if falsyO oldNode then
      match newNode with
      | none => none
      | some nn => some (setChildren parent (cs ++ [createElement nn]))
    else if falsyO newNode then
      some (setChildren parent (cs.eraseIdx index))
    else
      match newNode, oldNode with
      | some (VN.vs sNew), some (VN.vs sOld) =>
        match cs[index]? with
        | some c =>
            if sNew ≠ sOld then
              some (setChildren parent (cs.set index (setTextContent c sNew)))
            else some parent
        | none => some parent
      | some (VN.ve tNew pNew cNew), some (VN.ve tOld pOld cOld) =>
        if tNew ≠ tOld then
          some (replaceAt parent index (createElement (VN.ve tNew pNew cNew)))
        else
          match cs[index]? with
          | none => some parent
          | some c =>
            match upd fuel (UCall.uKids (updateProps c pNew pOld) cNew cOld 0) with
            | none => none
            | some c2 => some (setChildren parent (cs.set index c2))
      | some (VN.vs sNew), some (VN.ve _ _ _) =>
        some (replaceAt parent index (createElement (VN.vs sNew)))
      | some (VN.ve tNew pNew cNew), some (VN.vs _) =>
        some (replaceAt parent index (createElement (VN.ve tNew pNew cNew)))
      | _, _ => some parent
  | fuel + 1, UCall.uKids parent ns os i =>
    if i < max ns.length os.length then
      match upd fuel (UCall.uElem parent ns[i]? os[i]? i) with
      | none => none
      | some p2 => upd fuel (UCall.uKids p2 ns os (i + 1))
    else some parent

/-- `updateElement` (miniVue.ts lines 120-168) at a given nesting-depth
fuel. -/
def updateElement (fuel : Nat) (parent : Dom) (newNode oldNode : Option VN)
    (index : Nat) : Option Dom :=
  upd fuel (UCall.uElem parent newNode oldNode index)

/-- `updateChildren` (miniVue.ts lines 238-248) at a given nesting-depth
fuel. -/
def updateChildren (fuel : Nat) (parent : Dom)
    (newChildren oldChildren : List VN) : Option Dom :=
  upd fuel (UCall.uKids parent newChildren oldChildren 0)

/-! ## Reactivity core (miniVue.ts lines 20-100)

The reactivity system is embedded as a small-step interpreter.  Raw
objects live in a heap indexed by object identifiers; `reactive(x)` is a
wrapper `RRef.rwrap x pid` around a reference `x`, carrying the fresh
object identity `pid` of the proxy itself.  The dependency map `targetMap`
keys buckets by the identity of the trap target, which is the raw object
for a wrapper built directly over a raw object, and the inner proxy for a
wrapper built over another proxy.  Effect bodies are programs in a tiny
statement language (reads, writes, a conditional throw/read/write);
`exec` runs them against the shared state with a fuel bound on the
synchronous re-entrancy depth of `trigger`. -/

/-- A JavaScript value as the reactive claims exercise it.  `vproxy o p`
is a proxy object ultimately wrapping raw object `o`, with its own fresh
identity `p`: strict equality `===` compares `vproxy` by identity, so a
freshly minted proxy is unequal to every value already in scope. -/
inductive Val where
  | vundef
  | vnat (n : Nat)
  | vstr (s : String)
  | vobj (o : Nat)
  | vproxy (o : Nat) (pid : Nat)
deriving DecidableEq, Repr

/-- Identity of a `targetMap` key (the first argument of `track` and
`trigger`): a raw object or a proxy object. -/
inductive Tgt where
  | traw (o : Nat)
  | tproxy (pid : Nat)
deriving DecidableEq, Repr

/-- A reference through which code reads or writes: a raw object, or a
`reactive` proxy wrapper (with its own proxy identity `pid`) over another
reference (miniVue.ts line 70: the handler closes over `target = obj`). -/
inductive RRef where
  | rraw (o : Nat)
  | rwrap (r : RRef) (pid : Nat)
deriving DecidableEq, Repr

/-- The `targetMap` key a trap of a wrapper over `r` uses: the identity of
the wrapped reference `r` itself. -/
def idOf : RRef → Tgt
  | RRef.rraw o => Tgt.traw o
  | RRef.rwrap _ pid => Tgt.tproxy pid

/-- The raw object a wrapper chain ultimately wraps. -/
def baseOf : RRef → Nat
  | RRef.rraw o => o
  | RRef.rwrap r _ => baseOf r

/-- JavaScript `typeof v === "object" && v !== null` for our values. -/
def isObjV : Val → Bool
  | Val.vobj _ => true
  | Val.vproxy _ _ => true
  | _ => false

/-- Strip the proxy identity, exposing the raw object a value refers to. -/
def unwrapV : Val → Val
  | Val.vproxy o _ => Val.vobj o
  | v => v

/-- The raw-object heap. -/
abbrev Heap := List (Nat × List (String × Val))

/-- Read a raw object property (a missing property is `undefined`). -/
def hget : Heap → Nat → String → Val
  | [], _, _ => Val.vundef
  | (o0, kvs) :: r, o, k =>
      if o0 = o then (aget kvs k).getD Val.vundef else hget r o k

/-- Write a raw object property. -/
def hset : Heap → Nat → String → Val → Heap
  | [], o, k, v => [(o, [(k, v)])]
  | (o0, kvs) :: r, o, k, v =>
      if o0 = o then (o0, aset kvs k v) :: r else (o0, kvs) :: hset r o k v

/-- The dependency map `targetMap` (miniVue.ts line 26), flattened from
`WeakMap (Map (Set Effect))` to buckets addressed by (target, key);
bucket lists keep set insertion order and contain no duplicates. -/
abbrev Deps := List (Tgt × String × List Nat)

/-- The bucket for a (target, key) pair (empty when absent). -/
def depsGet : Deps → Tgt → String → List Nat
  | [], _, _ => []
  | (t0, k0, es) :: r, t, k =>
      if t0 = t ∧ k0 = k then es else depsGet r t k

/-- `dep.add(activeEffect)` with the lazily created maps (miniVue.ts
lines 35-47): create the bucket if needed, append the effect unless
already present. -/
def depsAdd : Deps → Tgt → String → Nat → Deps
  | [], t, k, e => [(t, k, [e])]
  | (t0, k0, es) :: r, t, k, e =>
      if t0 = t ∧ k0 = k then
        (t0, k0, if e ∈ es then es else es ++ [e]) :: r
      else (t0, k0, es) :: depsAdd r t k e

/-- The shared reactive state: the raw heap, the dependency map, the
global `activeEffect` slot (miniVue.ts line 25), and the supply of fresh
proxy identities. -/
structure RState where
  heap : Heap
  deps : Deps
  active : Option Nat
  nextPid : Nat
deriving DecidableEq, Repr

/-- The part of the state the claims compare across effect runs (the
proxy-identity supply is excluded: minting a fresh wrapper is not an
observable mutation). -/
structure Core where
  heap : Heap
  deps : Deps
  active : Option Nat
deriving DecidableEq, Repr

/-- Project the observable core of a state. -/
def coreOf (s : RState) : Core := ⟨s.heap, s.deps, s.active⟩

/-- `track` (miniVue.ts lines 32-48): a no-op without an active effect,
otherwise add the active effect to the (target, key) bucket. -/
def track (s : RState) (t : Tgt) (k : String) : RState :=
  match s.active with
  | none => s
  | some e => { s with deps := depsAdd s.deps t k e }

/-- The get trap of `reactive` (miniVue.ts lines 71-76): read through the
wrapped reference (running its traps), `track` against the identity of
the trap target, and wrap an object-typed result in a fresh proxy.
Reading a raw object runs no trap and tracks nothing. -/
def readRef : RState → RRef → String → RState × Val
  | s, RRef.rraw o, k => (s, hget s.heap o k)
  | s, RRef.rwrap r _, k =>
      let p := readRef s r k
      let s2 := track p.1 (idOf r) k
      match p.2 with
      | Val.vobj o2 =>
          ({ s2 with nextPid := s2.nextPid + 1 }, Val.vproxy o2 s2.nextPid)
      | Val.vproxy o2 _ =>
          ({ s2 with nextPid := s2.nextPid + 1 }, Val.vproxy o2 s2.nextPid)
      | v2 => (s2, v2)

/-- A flat statement of an effect body: a reactive read, a reactive
write, or a throw. -/
inductive StmtF where
  | fread (r : RRef) (k : String)
  | fwrite (r : RRef) (k : String) (v : Val)
  | fthrow
deriving DecidableEq, Repr

/-- A statement: a flat statement, or a conditional that reads a property
(with tracking, like any reactive read) and runs its branch when the read
value strictly equals the given one. -/
inductive Stmt where
  | base (f : StmtF)
  | sif (r : RRef) (k : String) (v : Val) (thn : StmtF)
deriving DecidableEq, Repr

/-- The registered effect functions, by identity (function reference). -/
abbrev Env := Nat → List Stmt

/-- Observable events of a run: an effect invocation, or a read performed
by an effect body (recorded with the underlying raw value). -/
inductive Ev where
  | inv (e : Nat)
  | rd (o : Nat) (k : String) (v : Val)
deriving DecidableEq, Repr

/-- Result of a run: final state, whether an exception escaped, whether
the fuel ran out (a model artifact, not JavaScript behavior), and the
event log. -/
structure Outcome where
  st : RState
  exn : Bool
  oom : Bool
  log : List Ev
deriving DecidableEq, Repr

/-- A normal completion with no events. -/
def okO (s : RState) : Outcome := ⟨s, false, false, []⟩

/-- The effect invocations in a log, in order. -/
def invEvents : List Ev → List Nat
  | [] => []
  | Ev.inv e :: r => e :: invEvents r
  | Ev.rd _ _ _ :: r => invEvents r

/-- The mutually recursive entry points of the interpreter: run a program
(an effect body), run one flat statement, run the set trap of a wrapper
chain, and run `trigger` with the set of already visited effects. -/
inductive Call where
  | cProg (s : RState) (p : List Stmt)
  | cStmtF (s : RState) (f : StmtF)
  | cSet (s : RState) (r : RRef) (k : String) (v : Val)
  | cTrig (s : RState) (t : Tgt) (k : String) (visited : List Nat)

/-- The state a call starts from. -/
def stateOf : Call → RState
  | Call.cProg s _ => s
  | Call.cStmtF s _ => s
  | Call.cSet s _ _ _ => s
  | Call.cTrig s _ _ _ => s

/-- The interpreter.  `cSet` on a wrapper is the set trap (miniVue.ts
lines 78-88): read the old value through the trap target, perform the
underlying write by recursing into the target (a raw write for a raw
target), and call `trigger` on the target identity only when the value
changed, after the write took effect.  `cSet` on a raw reference is the
plain untrapped assignment.  `cTrig` is `trigger` (miniVue.ts lines
54-62): `dep.forEach(fn => fn())` over the (target, key) bucket in
insertion order, visiting effects added mid-iteration, with an exception
aborting the remaining iteration; it never modifies the slot or the map
itself.  `cProg`/`cStmtF` run effect bodies: statements execute in order
until one throws; a conditional logs its read and runs its branch on
strict equality.  Fuel bounds the recursion; running out sets `oom`. -/
def exec (env : Env) : Nat → Call → Outcome
  | 0, c => { st := stateOf c, exn := false, oom := true, log := [] }
  | _ + 1, Call.cProg s [] => okO s
  | fuel + 1, Call.cProg s (Stmt.base sf :: rest) =>
      let o1 := exec env fuel (Call.cStmtF s sf)
      if o1.exn || o1.oom then o1
      else
        let o2 := exec env fuel (Call.cProg o1.st rest)
        { o2 with log := o1.log ++ o2.log }
  | fuel + 1, Call.cProg s (Stmt.sif r k v thn :: rest) =>
      let p := readRef s r k
      let o1 :=
        if p.2 = v then
          let o := exec env fuel (Call.cStmtF p.1 thn)
          { o with log := Ev.rd (baseOf r) k (unwrapV p.2) :: o.log }
        else
          { st := p.1, exn := false, oom := false
            log := [Ev.rd (baseOf r) k (unwrapV p.2)] }
      if o1.exn || o1.oom then o1
      else
        let o2 := exec env fuel (Call.cProg o1.st rest)
        { o2 with log := o1.log ++ o2.log }
  | _ + 1, Call.cStmtF s (StmtF.fread r k) =>
      let p := readRef s r k
      { st := p.1, exn := false, oom := false
        log := [Ev.rd (baseOf r) k (unwrapV p.2)] }
  | fuel + 1, Call.cStmtF s (StmtF.fwrite r k v) =>
      exec env fuel (Call.cSet s r k v)
  | _ + 1, Call.cStmtF s StmtF.fthrow =>
      { st := s, exn := true, oom := false, log := [] }
  | _ + 1, Call.cSet s (RRef.rraw o) k v =>
      okO { s with heap := hset s.heap o k v }
  | fuel + 1, Call.cSet s (RRef.rwrap r _) k v =>
      let p := readRef s r k
      let o1 := exec env fuel (Call.cSet p.1 r k v)
      if o1.exn || o1.oom then o1
      else if p.2 ≠ v then
        let o2 := exec env fuel (Call.cTrig o1.st (idOf r) k [])
        { o2 with log := o1.log ++ o2.log }
      else o1
  | fuel + 1, Call.cTrig s t k visited =>
      match (depsGet s.deps t k).find? (fun e => !(visited.contains e)) with
      | none => okO s
      | some e =>
          let o1 := exec env fuel (Call.cProg s (env e))
          if o1.exn || o1.oom then { o1 with log := Ev.inv e :: o1.log }
          else
            let o2 := exec env fuel (Call.cTrig o1.st t k (visited ++ [e]))
            { o2 with log := Ev.inv e :: (o1.log ++ o2.log) }

/-- `effect` (miniVue.ts lines 96-100): set the global slot to the
function, run it once, then clear the slot.  When the body throws, the
clearing assignment is never reached and the slot stays set. -/
def effect (env : Env) (fuel : Nat) (s : RState) (e : Nat) : Outcome :=
  let o := exec env fuel (Call.cProg { s with active := some e } (env e))
  if o.exn || o.oom then o
  else { o with st := { o.st with active := none } }

/-- An effect body that only performs reactive reads. -/
def Benign : List Stmt → Bool
  | [] => true
  | Stmt.base (StmtF.fread _ _) :: r => Benign r
  | _ => false

/-- A body that, from any state with the given observable core, completes
without an exception, preserves the core, invokes no effect, and logs
reads whose values are determined by the heap of that core. -/
def RunsClean (env : Env) (c : Core) (p : List Stmt) : Prop :=
  ∀ fuel s, coreOf s = c →
    (exec env fuel (Call.cProg s p)).oom = false →
    (exec env fuel (Call.cProg s p)).exn = false
    ∧ coreOf (exec env fuel (Call.cProg s p)).st = c
    ∧ invEvents (exec env fuel (Call.cProg s p)).log = []
    ∧ ∀ o2 k2 x, Ev.rd o2 k2 x ∈ (exec env fuel (Call.cProg s p)).log →
        x = unwrapV (hget c.heap o2 k2)

/-- A body that, from any state with the given observable core, throws,
preserving the core and invoking no effect. -/
def RunsThrow (env : Env) (c : Core) (p : List Stmt) : Prop :=
  ∀ fuel s, coreOf s = c →
    (exec env fuel (Call.cProg s p)).oom = false →
    (exec env fuel (Call.cProg s p)).exn = true
    ∧ coreOf (exec env fuel (Call.cProg s p)).st = c
    ∧ invEvents (exec env fuel (Call.cProg s p)).log = []

/-- The target identities of the traps a write through a wrapper chain
fires, innermost first. -/
def layerTgts : RRef → List Tgt
  | RRef.rraw _ => []
  | RRef.rwrap r _ => layerTgts r ++ [idOf r]

/-- The wrapper `reactive(raw object 0)` used by the re-run scenario. -/
def wC2 : RRef := RRef.rwrap (RRef.rraw 0) 100

/-- Effect table of the re-run scenario: effect `0` reads property `a`,
then reads `flag` and reads property `b` only when `flag` is `1` (so `b`
is not read on the initial run, only on a re-run after `flag` changes). -/
def envC2 : Env := fun e =>
  if e = 0 then
    [Stmt.base (StmtF.fread wC2 "a"),
     Stmt.sif wC2 "flag" (Val.vnat 1) (StmtF.fread wC2 "b")]
  else []

/-- Initial state of the re-run scenario: raw object 0 with properties
`a = 7`, `flag = 0`, `b = 3`; empty dependency map; no active effect. -/
def s0C2 : RState :=
  { heap := [(0, [("a", Val.vnat 7), ("flag", Val.vnat 0), ("b", Val.vnat 3)])]
    deps := [], active := none, nextPid := 0 }

/-- Effect table of the throwing-registration scenario: effect `7` throws
unconditionally. -/
def envC4 : Env := fun e => if e = 7 then [Stmt.base StmtF.fthrow] else []

/-- Initial state of the throwing-registration scenario: raw object 1
with property `p = 0`. -/
def s0C4 : RState :=
  { heap := [(1, [("p", Val.vnat 0)])], deps := [], active := none, nextPid := 0 }

/-- Effect table of the trigger-on-change scenario: effect `5` reads
property `x` of raw object 0 through a wrapper. -/
def envC6 : Env := fun e =>
  if e = 5 then [Stmt.base (StmtF.fread (RRef.rwrap (RRef.rraw 0) 9) "x")] else []

/-- State of the trigger-on-change scenario: `x = 1` on raw object 0,
with effect `5` already recorded in the bucket of `(raw 0, x)`. -/
def s0C6 : RState :=
  { heap := [(0, [("x", Val.vnat 1)])]
    deps := [(Tgt.traw 0, "x", [5])], active := none, nextPid := 0 }

/-- Effect table of the exception scenario: effects 1 and 3 read `x`
through wrappers; effect 2 reads `x` and throws exactly when it is 99
(like a guard `if (state.x > limit) throw`). -/
def envC7 : Env := fun e =>
  if e = 1 then [Stmt.base (StmtF.fread (RRef.rwrap (RRef.rraw 0) 11) "x")]
  else if e = 2 then
    [Stmt.sif (RRef.rwrap (RRef.rraw 0) 12) "x" (Val.vnat 99) StmtF.fthrow]
  else if e = 3 then [Stmt.base (StmtF.fread (RRef.rwrap (RRef.rraw 0) 13) "x")]
  else []

/-- State of the exception scenario: `x = 1` on raw object 0, with the
bucket of `(raw 0, x)` holding effects 1, 2, 3 in insertion order. -/
def s0C7 : RState :=
  { heap := [(0, [("x", Val.vnat 1)])]
    deps := [(Tgt.traw 0, "x", [1, 2, 3])], active := none, nextPid := 0 }

end MiniVue

namespace MiniVue

/-! ## Theorems: routing -/

/-- Helper: `Array.find` (first element satisfying a predicate) agrees
with taking the head of the filtered list. -/
theorem find?_eq_head?_filter {α : Type} (p : α → Bool) (l : List α) :
    l.find? p = (l.filter p).head? := by
  induction l with
  | nil => rfl
  | cons a r ih =>
    cases h : p a with
    | true =>
      rw [List.find?_cons_of_pos _ h, List.filter_cons_of_pos h, List.head?_cons]
    | false =>
      rw [List.find?_cons_of_neg _ (by simp [h]),
        List.filter_cons_of_neg (by simp [h]), ih]

/-- C8: route resolution returns the first route whose path exactly equals
the current path, else the first wildcard route, else nothing; with the
demo table the unknown path resolves to the wildcard, `/about` resolves to
the about entry, and the empty table resolves to nothing. -/
theorem findRoute_resolution :
    (∀ (routes : List Route) (path : String),
      findRoute routes path = findRouteSpec routes path)
    ∧ (∀ path : String, findRoute [] path = none)
    ∧ findRoute [⟨"/", 0⟩, ⟨"/about", 1⟩, ⟨"*", 2⟩] "/zzz" = some ⟨"*", 2⟩
    ∧ findRoute [⟨"/", 0⟩, ⟨"/about", 1⟩, ⟨"*", 2⟩] "/about" = some ⟨"/about", 1⟩ := by
  refine ⟨fun routes path => ?_, fun path => rfl, by decide, by decide⟩
  unfold findRoute findRouteSpec
  rw [find?_eq_head?_filter, find?_eq_head?_filter]

/-- C9: navigate is a complete no-op when a navigation is in flight or the
target equals the current path; otherwise it records exactly one history
push and one reactive mutation, and an immediately repeated call with the
same target changes nothing further. -/
theorem navigate_dedup (s : RouterSt) (path : String) :
    (s.isNavigating = true → navigate s path = s)
    ∧ (s.currentPath = path → navigate s path = s)
    ∧ (s.isNavigating = false → s.currentPath ≠ path →
        navigate (navigate s path) path = navigate s path
        ∧ (navigate s path).pushes = s.pushes ++ [path]
        ∧ (navigate s path).mutations = s.mutations + 1
        ∧ (navigate s path).currentPath = path) := by
  refine ⟨fun h => ?_, fun h => ?_, fun h1 h2 => ?_⟩
  · simp [navigate, h]
  · have heq : (s.currentPath == path) = true := by simp [h]
    simp [navigate, heq]
  · have hne : (s.currentPath == path) = false := by
      simpa [beq_iff_eq] using h2
    constructor
    · simp [navigate, h1, hne]
    · simp [navigate, h1, hne]

/-- C9 witness: the theorem applied to a concrete idle router state. -/
theorem navigate_dedup_witness :
    navigate (navigate ⟨"/", false, [], 0⟩ "/about") "/about"
      = navigate ⟨"/", false, [], 0⟩ "/about"
    ∧ (navigate ⟨"/", false, [], 0⟩ "/about").pushes = [] ++ ["/about"]
    ∧ (navigate ⟨"/", false, [], 0⟩ "/about").mutations = 0 + 1 := by
  have h := (navigate_dedup ⟨"/", false, [], 0⟩ "/about").2.2 rfl (by decide)
  exact ⟨h.1, h.2.1, h.2.2.1⟩

/-! ## Theorems: mount atomicity (C3) -/

/-- C3 counterexample: mounting with neither render nor router does throw
the configuration error before any DOM mutation, but it is not atomic as
the claim states: the state factory has already run once, the instance is
left marked mounted, and a second mount on the same instance is rejected
as a double mount. -/
theorem mount_cfg_error_not_atomic :
    (mountM ⟨false, false⟩ freshApp "#app" true).2 = some cfgErrMsg
    ∧ (mountM ⟨false, false⟩ freshApp "#app" true).1.stateAllocs = 1
    ∧ (mountM ⟨false, false⟩ freshApp "#app" true).1.mounted = true
    ∧ (mountM ⟨false, false⟩ (mountM ⟨false, false⟩ freshApp "#app" true).1
        "#app" true).2 = some "App is already mounted" := by
  decide

/-- C3 amended: mounting an unmounted instance with neither render nor
router throws the configuration error; no DOM mutation happens, no
listener and no global router are registered, but the state factory has
already been invoked once, the instance stays marked mounted (so a later
mount is rejected as a double mount), and the active-effect slot is left
set. -/
theorem mount_cfg_error_effects (a : MApp) (sel : String)
    (h : a.mounted = false) :
    (mountM ⟨false, false⟩ a sel true).2 = some cfgErrMsg
    ∧ (mountM ⟨false, false⟩ a sel true).1.domMutations = a.domMutations
    ∧ (mountM ⟨false, false⟩ a sel true).1.listeners = a.listeners
    ∧ (mountM ⟨false, false⟩ a sel true).1.globalRouterSet = a.globalRouterSet
    ∧ (mountM ⟨false, false⟩ a sel true).1.stateAllocs = a.stateAllocs + 1
    ∧ (mountM ⟨false, false⟩ a sel true).1.mounted = true
    ∧ (mountM ⟨false, false⟩ a sel true).1.activeStuck = true
    ∧ ∀ sel2 ce, (mountM ⟨false, false⟩ (mountM ⟨false, false⟩ a sel true).1
        sel2 ce).2 = some "App is already mounted" := by
  simp [mountM, h]

/-- C3 witness: the amended theorem applied to a fresh instance. -/
theorem mount_cfg_error_effects_witness :
    (mountM ⟨false, false⟩ freshApp "#app" true).2 = some cfgErrMsg
    ∧ (mountM ⟨false, false⟩ freshApp "#app" true).1.stateAllocs = 0 + 1 := by
  have h := mount_cfg_error_effects freshApp "#app" rfl
  exact ⟨h.1, h.2.2.2.2.1⟩

/-! ## Lemmas: the reactivity interpreter -/

theorem track_heap (s : RState) (t : Tgt) (k : String) :
    (track s t k).heap = s.heap := by
  unfold track; cases s.active <;> rfl

theorem track_active (s : RState) (t : Tgt) (k : String) :
    (track s t k).active = s.active := by
  unfold track; cases h : s.active <;> simp [h]

theorem track_nextPid (s : RState) (t : Tgt) (k : String) :
    (track s t k).nextPid = s.nextPid := by
  unfold track; cases s.active <;> rfl

theorem track_deps_none (s : RState) (t : Tgt) (k : String)
    (h : s.active = none) : (track s t k).deps = s.deps := by
  unfold track; rw [h]

theorem track_deps_some (s : RState) (t : Tgt) (k : String) (e : Nat)
    (h : s.active = some e) : (track s t k).deps = depsAdd s.deps t k e := by
  unfold track; rw [h]

theorem readRef_heap (r : RRef) : ∀ (s : RState) (k : String),
    (readRef s r k).1.heap = s.heap := by
  induction r with
  | rraw o => intro s k; rfl
  | rwrap r pid ih =>
    intro s k
    simp only [readRef]
    split <;> simp [track_heap, ih]

theorem readRef_active (r : RRef) : ∀ (s : RState) (k : String),
    (readRef s r k).1.active = s.active := by
  induction r with
  | rraw o => intro s k; rfl
  | rwrap r pid ih =>
    intro s k
    simp only [readRef]
    split <;> simp [track_active, ih]

theorem readRef_deps_none (r : RRef) : ∀ (s : RState) (k : String),
    s.active = none → (readRef s r k).1.deps = s.deps := by
  induction r with
  | rraw o => intro s k _; rfl
  | rwrap r pid ih =>
    intro s k h
    have hact : (readRef s r k).1.active = none := by rw [readRef_active, h]
    simp only [readRef]
    split <;> simp [track_deps_none _ _ _ hact, ih s k h]

theorem readRef_core_none (r : RRef) (s : RState) (k : String)
    (h : s.active = none) : coreOf (readRef s r k).1 = coreOf s := by
  simp [coreOf, readRef_heap, readRef_active, readRef_deps_none r s k h]

theorem readRef_unwrap (r : RRef) : ∀ (s : RState) (k : String),
    unwrapV (readRef s r k).2 = unwrapV (hget s.heap (baseOf r) k) := by
  induction r with
  | rraw o => intro s k; rfl
  | rwrap r pid ih =>
    intro s k
    simp only [readRef, baseOf]
    split
    · next h => rw [← ih s k, h]; rfl
    · next o2 p2 h => rw [← ih s k, h]; rfl
    · next h => rw [← ih s k]

theorem readRef_val_cases (r : RRef) : ∀ (s : RState) (k : String),
    (readRef s r k).2 = hget s.heap (baseOf r) k
    ∨ ∃ o2 p2, (readRef s r k).2 = Val.vproxy o2 p2 := by
  induction r with
  | rraw o => intro s k; exact Or.inl rfl
  | rwrap r pid ih =>
    intro s k
    simp only [readRef, baseOf]
    split
    · exact Or.inr ⟨_, _, rfl⟩
    · exact Or.inr ⟨_, _, rfl⟩
    · next v2 hno hnp =>
      rcases ih s k with hc | ⟨o2, p2, hc⟩
      · exact Or.inl hc
      · exact Or.inr ⟨o2, p2, hc⟩

theorem exec_active (env : Env) : ∀ (fuel : Nat) (c : Call),
    (exec env fuel c).st.active = (stateOf c).active := by
  intro fuel
  induction fuel with
  | zero => intro c; rfl
  | succ fuel ih =>
    intro c
    cases c with
    | cProg s p =>
      match p with
      | [] => rfl
      | Stmt.base sf :: rest =>
        simp only [exec]
        split <;> simp [ih, stateOf]
      | Stmt.sif r k v thn :: rest =>
        simp only [exec]
        split <;> split <;> simp [ih, stateOf, readRef_active]
    | cStmtF s sf =>
      match sf with
      | StmtF.fread r k => simp [exec, stateOf, readRef_active]
      | StmtF.fwrite r k v => simp [exec, ih, stateOf]
      | StmtF.fthrow => rfl
    | cSet s r k v =>
      match r with
      | RRef.rraw o => rfl
      | RRef.rwrap r pid =>
        simp only [exec]
        split <;> [skip; split] <;> simp [ih, stateOf, readRef_active]
    | cTrig s t k visited =>
      simp only [exec]
      split
      · rfl
      · split <;> simp [ih, stateOf]

theorem exec_deps_none (env : Env) : ∀ (fuel : Nat) (c : Call),
    (stateOf c).active = none →
    (exec env fuel c).st.deps = (stateOf c).deps := by
  intro fuel
  induction fuel with
  | zero => intro c _; rfl
  | succ fuel ih =>
    intro c h
    cases c with
    | cProg s p =>
      match p with
      | [] => rfl
      | Stmt.base sf :: rest =>
        simp only [exec]
        split
        · exact ih (Call.cStmtF s sf) h
        · have h1 : (exec env fuel (Call.cStmtF s sf)).st.active = none := by
            rw [exec_active]; exact h
          show (exec env fuel
            (Call.cProg (exec env fuel (Call.cStmtF s sf)).st rest)).st.deps = s.deps
          rw [ih (Call.cProg (exec env fuel (Call.cStmtF s sf)).st rest) h1]
          simp only [stateOf]
          rw [ih (Call.cStmtF s sf) h]
          simp only [stateOf]
      | Stmt.sif r k v thn :: rest =>
        have hact : (readRef s r k).1.active = none := by
          rw [readRef_active]; exact h
        have hdeps : (readRef s r k).1.deps = s.deps := readRef_deps_none r s k h
        have hact2 : (exec env fuel (Call.cStmtF (readRef s r k).1 thn)).st.active
            = none := by rw [exec_active]; exact hact
        simp only [exec]
        by_cases hv : (readRef s r k).2 = v
        · simp only [if_pos hv]
          split
          · show (exec env fuel (Call.cStmtF (readRef s r k).1 thn)).st.deps = s.deps
            rw [ih (Call.cStmtF (readRef s r k).1 thn) hact]
            simp only [stateOf]
            exact hdeps
          · show (exec env fuel (Call.cProg
              (exec env fuel (Call.cStmtF (readRef s r k).1 thn)).st rest)).st.deps
              = s.deps
            rw [ih (Call.cProg
                (exec env fuel (Call.cStmtF (readRef s r k).1 thn)).st rest) hact2]
            simp only [stateOf]
            rw [ih (Call.cStmtF (readRef s r k).1 thn) hact]
            simp only [stateOf]
            exact hdeps
        · simp only [if_neg hv]
          split
          · exact hdeps
          · show (exec env fuel (Call.cProg (readRef s r k).1 rest)).st.deps = s.deps
            rw [ih (Call.cProg (readRef s r k).1 rest) hact]
            simp only [stateOf]
            exact hdeps
    | cStmtF s sf =>
      match sf with
      | StmtF.fread r k => exact readRef_deps_none r s k h
      | StmtF.fwrite r k v => exact ih (Call.cSet s r k v) h
      | StmtF.fthrow => rfl
    | cSet s r k v =>
      match r with
      | RRef.rraw o => rfl
      | RRef.rwrap r pid =>
        have hact : (readRef s r k).1.active = none := by
          rw [readRef_active]; exact h
        have hdeps : (readRef s r k).1.deps = s.deps := readRef_deps_none r s k h
        have hact2 : (exec env fuel (Call.cSet (readRef s r k).1 r k v)).st.active
            = none := by rw [exec_active]; exact hact
        simp only [exec]
        split
        · show (exec env fuel (Call.cSet (readRef s r k).1 r k v)).st.deps = s.deps
          rw [ih (Call.cSet (readRef s r k).1 r k v) hact]
          simp only [stateOf]
          exact hdeps
        · split
          · show (exec env fuel (Call.cTrig
              (exec env fuel (Call.cSet (readRef s r k).1 r k v)).st
              (idOf r) k [])).st.deps = s.deps
            rw [ih (Call.cTrig
                (exec env fuel (Call.cSet (readRef s r k).1 r k v)).st
                (idOf r) k []) hact2]
            simp only [stateOf]
            rw [ih (Call.cSet (readRef s r k).1 r k v) hact]
            simp only [stateOf]
            exact hdeps
          · show (exec env fuel (Call.cSet (readRef s r k).1 r k v)).st.deps = s.deps
            rw [ih (Call.cSet (readRef s r k).1 r k v) hact]
            simp only [stateOf]
            exact hdeps
    | cTrig s t k visited =>
      simp only [exec]
      split
      · rfl
      · next e heq =>
        have hact : (exec env fuel (Call.cProg s (env e))).st.active = none := by
          rw [exec_active]; exact h
        split
        · exact ih (Call.cProg s (env e)) h
        · show (exec env fuel (Call.cTrig
            (exec env fuel (Call.cProg s (env e))).st t k (visited ++ [e]))).st.deps
            = s.deps
          rw [ih (Call.cTrig (exec env fuel (Call.cProg s (env e))).st t k
              (visited ++ [e])) hact]
          simp only [stateOf]
          rw [ih (Call.cProg s (env e)) h]
          simp only [stateOf]

theorem depsGet_depsAdd_same (t : Tgt) (k : String) (e : Nat) :
    ∀ d : Deps, depsGet (depsAdd d t k e) t k
      = if e ∈ depsGet d t k then depsGet d t k else depsGet d t k ++ [e] := by
  intro d
  induction d with
  | nil => simp [depsAdd, depsGet]
  | cons hd tl ih =>
    obtain ⟨t0, k0, es⟩ := hd
    by_cases hc : t0 = t ∧ k0 = k
    · simp [depsAdd, depsGet, hc]
    · simp [depsAdd, depsGet, hc, ih]

theorem mem_depsGet_depsAdd (t t2 : Tgt) (k k2 : String) (e x : Nat) :
    ∀ d : Deps, x ∈ depsGet d t k → x ∈ depsGet (depsAdd d t2 k2 e) t k := by
  intro d
  induction d with
  | nil => intro h; simp [depsGet] at h
  | cons hd tl ih =>
    obtain ⟨t0, k0, es⟩ := hd
    intro h
    simp only [depsGet] at h
    simp only [depsAdd]
    by_cases hc : t0 = t2 ∧ k0 = k2
    · rw [if_pos hc]
      simp only [depsGet]
      by_cases hc2 : t0 = t ∧ k0 = k
      · rw [if_pos hc2] at h ⊢
        split
        · exact h
        · exact List.mem_append_left _ h
      · rw [if_neg hc2] at h ⊢
        exact h
    · rw [if_neg hc]
      simp only [depsGet]
      by_cases hc2 : t0 = t ∧ k0 = k
      · rw [if_pos hc2] at h ⊢
        exact h
      · rw [if_neg hc2] at h ⊢
        exact ih h

theorem self_mem_depsGet_depsAdd (d : Deps) (t : Tgt) (k : String) (e : Nat) :
    e ∈ depsGet (depsAdd d t k e) t k := by
  rw [depsGet_depsAdd_same]
  split
  · next h => exact h
  · exact List.mem_append_right _ (List.mem_singleton.mpr rfl)

theorem readRef_deps_wrap (s : RState) (r : RRef) (pid : Nat) (k : String) :
    (readRef s (RRef.rwrap r pid) k).1.deps
      = (track (readRef s r k).1 (idOf r) k).deps := by
  simp only [readRef]
  split <;> rfl

theorem readRef_tracks (r : RRef) : ∀ (s : RState) (k : String) (e pid : Nat),
    s.active = some e →
    e ∈ depsGet (readRef s (RRef.rwrap r pid) k).1.deps (Tgt.traw (baseOf r)) k := by
  induction r with
  | rraw o =>
    intro s k e pid h
    rw [readRef_deps_wrap]
    have : (readRef s (RRef.rraw o) k).1 = s := rfl
    rw [this, track_deps_some s (idOf (RRef.rraw o)) k e h]
    exact self_mem_depsGet_depsAdd _ _ _ _
  | rwrap r pid0 ih =>
    intro s k e pid h
    rw [readRef_deps_wrap]
    have hact : (readRef s (RRef.rwrap r pid0) k).1.active = some e := by
      rw [readRef_active]; exact h
    rw [track_deps_some _ _ _ e hact]
    exact mem_depsGet_depsAdd _ _ _ _ _ _ _ (ih s k e pid0 h)

theorem effect_exn_state (env : Env) (fuel : Nat) (s : RState) (e : Nat)
    (hx : (effect env fuel s e).exn = true) :
    (effect env fuel s e)
      = exec env fuel (Call.cProg { s with active := some e } (env e)) := by
  unfold effect at hx ⊢
  by_cases hc : ((exec env fuel (Call.cProg { s with active := some e } (env e))).exn
      || (exec env fuel (Call.cProg { s with active := some e } (env e))).oom) = true
  · simp only [hc, if_true]
  · simp only [hc, if_false] at hx ⊢
    simp only [Bool.or_eq_true, not_or, Bool.not_eq_true] at hc
    rw [hc.1] at hx
    exact absurd hx (by simp)

theorem effect_exn_active (env : Env) (fuel : Nat) (s : RState) (e : Nat)
    (hx : (effect env fuel s e).exn = true) :
    (effect env fuel s e).st.active = some e := by
  rw [effect_exn_state env fuel s e hx, exec_active]
  rfl

theorem cSet_single_wrapper_invokes (env : Env) (f2 : Nat) (s : RState)
    (o2 : Nat) (k2 : String) (pid2 : Nat) (v : Val) (e : Nat)
    (hb : depsGet s.deps (Tgt.traw o2) k2 = [e])
    (hv : hget s.heap o2 k2 ≠ v)
    (ho : (exec env f2 (Call.cSet s (RRef.rwrap (RRef.rraw o2) pid2) k2 v)).oom
      = false) :
    Ev.inv e
      ∈ (exec env f2 (Call.cSet s (RRef.rwrap (RRef.rraw o2) pid2) k2 v)).log := by
  match f2 with
  | 0 => exact absurd ho (by simp [exec])
  | 1 => exact absurd ho (by simp [exec])
  | f + 2 =>
    have hrr : readRef s (RRef.rraw o2) k2 = (s, hget s.heap o2 k2) := rfl
    simp only [exec, hrr, okO, idOf] at ho ⊢
    rw [if_neg (by simp)] at ho ⊢
    rw [if_pos hv] at ho ⊢
    simp only [hb] at ho ⊢
    simp only [List.contains_nil, Bool.not_false, List.find?_cons_of_pos] at ho ⊢
    split <;> simp

theorem invEvents_append (l1 l2 : List Ev) :
    invEvents (l1 ++ l2) = invEvents l1 ++ invEvents l2 := by
  induction l1 with
  | nil => rfl
  | cons a r ih => cases a <;> simp [invEvents, ih]

theorem filter_nil_of_find?_none {α : Type} (p : α → Bool) (l : List α)
    (h : l.find? p = none) : l.filter p = [] := by
  rw [find?_eq_head?_filter] at h
  exact List.head?_eq_none_iff.mp h

theorem find?_cons_skip {α : Type} (p : α → Bool) (a : α) (l : List α)
    (h : p a = false) : (a :: l).find? p = l.find? p := by
  simp [List.find?_cons, h]

theorem find?_cons_take {α : Type} (p : α → Bool) (a : α) (l : List α)
    (h : p a = true) : (a :: l).find? p = some a := by
  simp [List.find?_cons, h]

theorem filter_cons_skip {α : Type} (p : α → Bool) (a : α) (l : List α)
    (h : p a = false) : (a :: l).filter p = l.filter p := by
  simp [List.filter_cons, h]

theorem filter_cons_take {α : Type} (p : α → Bool) (a : α) (l : List α)
    (h : p a = true) : (a :: l).filter p = a :: l.filter p := by
  simp [List.filter_cons, h]

theorem filter_unvisited_step (es : List Nat) : ∀ (visited : List Nat) (e : Nat),
    es.Nodup →
    es.find? (fun x => !(visited.contains x)) = some e →
    es.filter (fun x => !(visited.contains x))
      = e :: es.filter (fun x => !((visited ++ [e]).contains x)) := by
  induction es with
  | nil => intro visited e _ hfind; simp [List.find?] at hfind
  | cons a r ih =>
    intro visited e hnd hfind
    by_cases hc : a ∈ visited
    · have hpa : (fun x => !(visited.contains x)) a = false := by simp [hc]
      rw [find?_cons_skip (fun x => !(visited.contains x)) a r hpa] at hfind
      have hskip2 : (fun x => !((visited ++ [e]).contains x)) a = false := by
        simp [hc]
      rw [filter_cons_skip (fun x => !(visited.contains x)) a r hpa,
        filter_cons_skip (fun x => !((visited ++ [e]).contains x)) a r hskip2]
      exact ih visited e (List.nodup_cons.mp hnd).2 hfind
    · have hpa : (fun x => !(visited.contains x)) a = true := by simp [hc]
      rw [find?_cons_take (fun x => !(visited.contains x)) a r hpa] at hfind
      injection hfind with he
      subst he
      rw [filter_cons_take (fun x => !(visited.contains x)) a r hpa]
      have hskip : (fun x => !((visited ++ [a]).contains x)) a = false := by simp
      rw [filter_cons_skip (fun x => !((visited ++ [a]).contains x)) a r hskip]
      have hcong : ∀ x ∈ r,
          (!(visited.contains x)) = (!((visited ++ [a]).contains x)) := by
        intro x hx
        have hxa : x ≠ a := by
          intro hxe
          rw [hxe] at hx
          exact (List.nodup_cons.mp hnd).1 hx
        simp [hxa]
      rw [List.filter_congr hcong]

theorem benign_run (env : Env) : ∀ (fuel : Nat) (p : List Stmt) (s : RState),
    Benign p = true → s.active = none →
    (exec env fuel (Call.cProg s p)).oom = false →
    (exec env fuel (Call.cProg s p)).exn = false
    ∧ coreOf (exec env fuel (Call.cProg s p)).st = coreOf s
    ∧ invEvents (exec env fuel (Call.cProg s p)).log = []
    ∧ ∀ o2 k2 x, Ev.rd o2 k2 x ∈ (exec env fuel (Call.cProg s p)).log →
        x = unwrapV (hget s.heap o2 k2) := by
  intro fuel
  induction fuel with
  | zero => intro p s _ _ ho; exact absurd ho (by simp [exec])
  | succ fuel ih =>
    intro p s hb ha ho
    match p, hb with
    | [], _ =>
      refine ⟨rfl, rfl, rfl, ?_⟩
      intro o2 k2 x hx
      simp [exec, okO] at hx
    | Stmt.base (StmtF.fread r k) :: rest, hb =>
      have hbt : Benign rest = true := hb
      match fuel, ho with
      | fuel2 + 1, ho =>
        have ho1 : exec env (fuel2 + 1) (Call.cStmtF s (StmtF.fread r k))
            = { st := (readRef s r k).1, exn := false, oom := false
                log := [Ev.rd (baseOf r) k (unwrapV (readRef s r k).2)] } := rfl
        simp only [exec, ho1, Bool.false_or] at ho ⊢
        rw [if_neg (by simp)] at ho ⊢
        have hact1 : (readRef s r k).1.active = none := by
          rw [readRef_active]; exact ha
        have ihr := ih rest (readRef s r k).1 hbt hact1 ho
        refine ⟨ihr.1, ?_, ?_, ?_⟩
        · rw [ihr.2.1, readRef_core_none r s k ha]
        · rw [invEvents_append, ihr.2.2.1]
          rfl
        · intro o2 k2 x hx
          rw [List.mem_append] at hx
          rcases hx with hx | hx
          · simp only [List.mem_singleton] at hx
            injection hx with h1 h2 h3
            subst h1; subst h2; subst h3
            rw [readRef_unwrap]
          · have := ihr.2.2.2 o2 k2 x hx
            rw [readRef_heap] at this
            exact this

theorem trig_clean (env : Env) : ∀ (fuel : Nat) (s : RState) (t : Tgt)
    (k : String) (visited : List Nat),
    (∀ e ∈ depsGet s.deps t k, RunsClean env (coreOf s) (env e)) →
    (depsGet s.deps t k).Nodup →
    (exec env fuel (Call.cTrig s t k visited)).oom = false →
    (exec env fuel (Call.cTrig s t k visited)).exn = false
    ∧ coreOf (exec env fuel (Call.cTrig s t k visited)).st = coreOf s
    ∧ invEvents (exec env fuel (Call.cTrig s t k visited)).log
        = (depsGet s.deps t k).filter (fun e => !(visited.contains e))
    ∧ ∀ o2 k2 x, Ev.rd o2 k2 x ∈ (exec env fuel (Call.cTrig s t k visited)).log →
        x = unwrapV (hget s.heap o2 k2) := by
  intro fuel
  induction fuel with
  | zero => intro s t k visited _ _ ho; exact absurd ho (by simp [exec])
  | succ fuel ih =>
    intro s t k visited hcl hnd ho
    cases hfind : (depsGet s.deps t k).find? (fun e => !(visited.contains e)) with
    | none =>
      simp only [exec, hfind] at ho ⊢
      refine ⟨rfl, rfl, ?_, ?_⟩
      · rw [filter_nil_of_find?_none _ _ hfind]; rfl
      · intro o2 k2 x hx
        simp [okO] at hx
    | some e =>
      simp only [exec, hfind] at ho ⊢
      have hmem : e ∈ depsGet s.deps t k := List.mem_of_find?_eq_some hfind
      have hce := hcl e hmem
      by_cases hbad : ((exec env fuel (Call.cProg s (env e))).exn
          || (exec env fuel (Call.cProg s (env e))).oom) = true
      · rw [if_pos hbad] at ho ⊢
        have ho1 : (exec env fuel (Call.cProg s (env e))).oom = false := ho
        have h1 := hce fuel s rfl ho1
        rw [h1.1, ho1] at hbad
        simp at hbad
      · rw [if_neg hbad] at ho ⊢
        have ho1 : (exec env fuel (Call.cProg s (env e))).oom = false := by
          cases hoom : (exec env fuel (Call.cProg s (env e))).oom
          · rfl
          · rw [hoom] at hbad
            simp at hbad
        have h1 := hce fuel s rfl ho1
        have hdeps1 : (exec env fuel (Call.cProg s (env e))).st.deps = s.deps :=
          congrArg Core.deps h1.2.1
        have hheap1 : (exec env fuel (Call.cProg s (env e))).st.heap = s.heap :=
          congrArg Core.heap h1.2.1
        have ho2 : (exec env fuel (Call.cTrig
            (exec env fuel (Call.cProg s (env e))).st t k (visited ++ [e]))).oom
            = false := ho
        have hclP : ∀ e2 ∈ depsGet (exec env fuel (Call.cProg s (env e))).st.deps t k,
            RunsClean env (coreOf (exec env fuel (Call.cProg s (env e))).st) (env e2) := by
          intro e2 he2
          rw [hdeps1] at he2
          rw [h1.2.1]
          exact hcl e2 he2
        have hndP : (depsGet (exec env fuel (Call.cProg s (env e))).st.deps t k).Nodup := by
          rw [hdeps1]; exact hnd
        have ihh := ih (exec env fuel (Call.cProg s (env e))).st t k
          (visited ++ [e]) hclP hndP ho2
        refine ⟨ihh.1, ?_, ?_, ?_⟩
        · rw [ihh.2.1, h1.2.1]
        · show invEvents (Ev.inv e :: ((exec env fuel (Call.cProg s (env e))).log
              ++ (exec env fuel (Call.cTrig (exec env fuel (Call.cProg s (env e))).st
                t k (visited ++ [e]))).log)) = _
          rw [show ∀ l, invEvents (Ev.inv e :: l) = e :: invEvents l from fun l => rfl]
          rw [invEvents_append, h1.2.2.1, ihh.2.2.1, hdeps1]
          rw [filter_unvisited_step (depsGet s.deps t k) visited e hnd hfind]
          rfl
        · intro o2 k2 x hx
          show x = unwrapV (hget s.heap o2 k2)
          have hx2 : Ev.rd o2 k2 x ∈ Ev.inv e ::
              ((exec env fuel (Call.cProg s (env e))).log
                ++ (exec env fuel (Call.cTrig (exec env fuel (Call.cProg s (env e))).st
                  t k (visited ++ [e]))).log) := hx
          rcases List.mem_cons.mp hx2 with hx3 | hx3
          · exact absurd hx3 (by simp)
          · rcases List.mem_append.mp hx3 with hx4 | hx4
            · exact h1.2.2.2 o2 k2 x hx4
            · have := ihh.2.2.2 o2 k2 x hx4
              rw [hheap1] at this
              exact this

theorem aget_aset {α : Type} (k : String) (v : α) :
    ∀ l : List (String × α), aget (aset l k v) k = some v := by
  intro l
  induction l with
  | nil => simp [aset, aget]
  | cons hd tl ih =>
    obtain ⟨k0, v0⟩ := hd
    by_cases hk : k0 = k
    · simp [aset, aget, hk]
    · simp [aset, aget, hk, ih]

theorem hget_hset (o : Nat) (k : String) (v : Val) :
    ∀ h : Heap, hget (hset h o k v) o k = v := by
  intro h
  induction h with
  | nil => simp [hset, hget, aget]
  | cons hd tl ih =>
    obtain ⟨o0, kvs⟩ := hd
    by_cases ho : o0 = o
    · simp [hset, hget, ho, aget_aset]
    · simp [hset, hget, ho, ih]

theorem filter_contains_nil (es : List Nat) :
    es.filter (fun x => !(([] : List Nat).contains x)) = es := by
  simp

theorem benign_runsClean (env : Env) (c : Core) (p : List Stmt)
    (hb : Benign p = true) (ha : c.active = none) :
    RunsClean env c p := by
  intro fuel s hcs ho
  have ha2 : s.active = none := by
    have h1 : (coreOf s).active = c.active := congrArg Core.active hcs
    rw [ha] at h1
    exact h1
  have hheap : s.heap = c.heap := congrArg Core.heap hcs
  have hr := benign_run env fuel p s hb ha2 ho
  refine ⟨hr.1, by rw [hr.2.1, hcs], hr.2.2.1, ?_⟩
  intro o2 k2 x hx
  rw [hr.2.2.2 o2 k2 x hx, hheap]

theorem exec_sif_fthrow (env : Env) (f : Nat) (s : RState) (r : RRef)
    (k : String) (v0 : Val) :
    exec env (f + 2) (Call.cProg s [Stmt.sif r k v0 StmtF.fthrow])
      = if (readRef s r k).2 = v0 then
          { st := (readRef s r k).1, exn := true, oom := false
            log := [Ev.rd (baseOf r) k (unwrapV (readRef s r k).2)] }
        else
          { st := (readRef s r k).1, exn := false, oom := false
            log := [Ev.rd (baseOf r) k (unwrapV (readRef s r k).2)] } := by
  by_cases hw : (readRef s r k).2 = v0
  · simp [exec, hw]
  · simp [exec, hw, okO]

theorem exec_sif_fthrow_oom1 (env : Env) (s : RState) (r : RRef)
    (k : String) (v0 : Val) :
    (exec env 1 (Call.cProg s [Stmt.sif r k v0 StmtF.fthrow])).oom = true := by
  by_cases hw : (readRef s r k).2 = v0
  · simp [exec, hw]
  · simp [exec, hw]

theorem sif_eq_throw (env : Env) (c : Core) (r : RRef) (k : String) (v0 : Val)
    (hprim : isObjV v0 = false)
    (hv : hget c.heap (baseOf r) k = v0)
    (ha : c.active = none) :
    RunsThrow env c [Stmt.sif r k v0 StmtF.fthrow] := by
  intro fuel s hcs ho
  have ha2 : s.active = none := by
    have h1 : (coreOf s).active = c.active := congrArg Core.active hcs
    rw [ha] at h1
    exact h1
  have hheap : s.heap = c.heap := congrArg Core.heap hcs
  have hw : (readRef s r k).2 = v0 := by
    rcases readRef_val_cases r s k with hc | ⟨o2, p2, hc⟩
    · rw [hc, hheap, hv]
    · have hu := readRef_unwrap r s k
      rw [hc, hheap, hv] at hu
      have hfix : unwrapV v0 = v0 := by
        cases v0 <;> first | rfl | (simp [isObjV] at hprim)
      rw [hfix] at hu
      rw [← hu] at hprim
      simp [isObjV, unwrapV] at hprim
  match fuel, ho with
  | 0, ho => exact absurd ho (by simp [exec])
  | 1, ho => exact absurd ho (by simp [exec_sif_fthrow_oom1])
  | f + 2, ho =>
    rw [exec_sif_fthrow, if_pos hw]
    refine ⟨rfl, ?_, rfl⟩
    show coreOf (readRef s r k).1 = c
    rw [readRef_core_none r s k ha2, hcs]

theorem sif_neq_clean (env : Env) (c : Core) (r : RRef) (k : String) (v0 : Val)
    (hprim : isObjV v0 = false)
    (hv : hget c.heap (baseOf r) k ≠ v0)
    (ha : c.active = none) :
    RunsClean env c [Stmt.sif r k v0 StmtF.fthrow] := by
  intro fuel s hcs ho
  have ha2 : s.active = none := by
    have h1 : (coreOf s).active = c.active := congrArg Core.active hcs
    rw [ha] at h1
    exact h1
  have hheap : s.heap = c.heap := congrArg Core.heap hcs
  have hw : (readRef s r k).2 ≠ v0 := by
    rcases readRef_val_cases r s k with hc | ⟨o2, p2, hc⟩
    · rw [hc, hheap]; exact hv
    · rw [hc]
      intro hcon
      rw [← hcon] at hprim
      simp [isObjV] at hprim
  match fuel, ho with
  | 0, ho => exact absurd ho (by simp [exec])
  | 1, ho => exact absurd ho (by simp [exec_sif_fthrow_oom1])
  | f + 2, ho =>
    rw [exec_sif_fthrow, if_neg hw]
    refine ⟨rfl, ?_, rfl, ?_⟩
    · show coreOf (readRef s r k).1 = c
      rw [readRef_core_none r s k ha2, hcs]
    · intro o2 k2 x hx
      simp only [List.mem_singleton] at hx
      injection hx with h1 h2 h3
      subst h1; subst h2; subst h3
      rw [readRef_unwrap, hheap]

theorem trig_throw (env : Env) : ∀ (l1 : List Nat) (fuel : Nat) (s : RState)
    (t : Tgt) (k : String) (visited : List Nat) (l2 : List Nat) (eT : Nat),
    (depsGet s.deps t k).filter (fun x => !(visited.contains x))
      = l1 ++ eT :: l2 →
    (depsGet s.deps t k).Nodup →
    (∀ e ∈ l1, RunsClean env (coreOf s) (env e)) →
    RunsThrow env (coreOf s) (env eT) →
    (exec env fuel (Call.cTrig s t k visited)).oom = false →
    (exec env fuel (Call.cTrig s t k visited)).exn = true
    ∧ coreOf (exec env fuel (Call.cTrig s t k visited)).st = coreOf s
    ∧ invEvents (exec env fuel (Call.cTrig s t k visited)).log = l1 ++ [eT] := by
  intro l1
  induction l1 with
  | nil =>
    intro fuel s t k visited l2 eT hfilter hnd hcl hthrow ho
    have hfind : (depsGet s.deps t k).find? (fun x => !(visited.contains x))
        = some eT := by
      rw [find?_eq_head?_filter, hfilter]
      rfl
    match fuel, ho with
    | 0, ho => exact absurd ho (by simp [exec])
    | f + 1, ho =>
      simp only [exec, hfind] at ho ⊢
      by_cases hbad : ((exec env f (Call.cProg s (env eT))).exn
          || (exec env f (Call.cProg s (env eT))).oom) = true
      · rw [if_pos hbad] at ho ⊢
        have ho1 : (exec env f (Call.cProg s (env eT))).oom = false := ho
        have h1 := hthrow f s rfl ho1
        refine ⟨h1.1, h1.2.1, ?_⟩
        show invEvents (Ev.inv eT :: (exec env f (Call.cProg s (env eT))).log)
          = [] ++ [eT]
        rw [show ∀ l, invEvents (Ev.inv eT :: l) = eT :: invEvents l
            from fun l => rfl]
        rw [h1.2.2]
        rfl
      · exfalso
        have ho1 : (exec env f (Call.cProg s (env eT))).oom = false := by
          cases hoom : (exec env f (Call.cProg s (env eT))).oom
          · rfl
          · rw [hoom] at hbad
            simp at hbad
        have h1 := hthrow f s rfl ho1
        rw [h1.1] at hbad
        simp at hbad
  | cons h0 l1' ih =>
    intro fuel s t k visited l2 eT hfilter hnd hcl hthrow ho
    have hfind : (depsGet s.deps t k).find? (fun x => !(visited.contains x))
        = some h0 := by
      rw [find?_eq_head?_filter, hfilter]
      rfl
    match fuel, ho with
    | 0, ho => exact absurd ho (by simp [exec])
    | f + 1, ho =>
      simp only [exec, hfind] at ho ⊢
      have hce := hcl h0 (List.mem_cons_self h0 l1')
      by_cases hbad : ((exec env f (Call.cProg s (env h0))).exn
          || (exec env f (Call.cProg s (env h0))).oom) = true
      · rw [if_pos hbad] at ho ⊢
        have ho1 : (exec env f (Call.cProg s (env h0))).oom = false := ho
        have h1 := hce f s rfl ho1
        rw [h1.1, ho1] at hbad
        simp at hbad
      · rw [if_neg hbad] at ho ⊢
        have ho1 : (exec env f (Call.cProg s (env h0))).oom = false := by
          cases hoom : (exec env f (Call.cProg s (env h0))).oom
          · rfl
          · rw [hoom] at hbad
            simp at hbad
        have h1 := hce f s rfl ho1
        have hdeps1 : (exec env f (Call.cProg s (env h0))).st.deps = s.deps :=
          congrArg Core.deps h1.2.1
        have hstep := filter_unvisited_step (depsGet s.deps t k) visited h0 hnd hfind
        rw [hfilter] at hstep
        have hfilter2 : (depsGet s.deps t k).filter
            (fun x => !((visited ++ [h0]).contains x)) = l1' ++ eT :: l2 := by
          injection hstep with _ h2
          exact h2.symm
        have ho2 : (exec env f (Call.cTrig
            (exec env f (Call.cProg s (env h0))).st t k (visited ++ [h0]))).oom
            = false := ho
        have ihh := ih f (exec env f (Call.cProg s (env h0))).st t k
          (visited ++ [h0]) l2 eT
          (by rw [hdeps1]; exact hfilter2)
          (by rw [hdeps1]; exact hnd)
          (by rw [h1.2.1]; intro e he; exact hcl e (List.mem_cons_of_mem h0 he))
          (by rw [h1.2.1]; exact hthrow)
          ho2
        refine ⟨ihh.1, by rw [ihh.2.1, h1.2.1], ?_⟩
        show invEvents (Ev.inv h0 :: ((exec env f (Call.cProg s (env h0))).log
            ++ (exec env f (Call.cTrig (exec env f (Call.cProg s (env h0))).st
              t k (visited ++ [h0]))).log)) = (h0 :: l1') ++ [eT]
        rw [show ∀ l, invEvents (Ev.inv h0 :: l) = h0 :: invEvents l
            from fun l => rfl]
        rw [invEvents_append, h1.2.2.1, ihh.2.2]
        rfl

/-- Closed form of the set trap of a single wrapper over a raw object
(miniVue.ts lines 78-88): the underlying write always happens; `trigger`
runs only when the old and new values differ. -/
theorem cSet_raw_wrapper_eq (env : Env) (f : Nat) (s : RState) (o pid : Nat)
    (k : String) (v : Val) :
    exec env (f + 2) (Call.cSet s (RRef.rwrap (RRef.rraw o) pid) k v)
      = if hget s.heap o k ≠ v then
          exec env (f + 1)
            (Call.cTrig { s with heap := hset s.heap o k v } (Tgt.traw o) k [])
        else okO { s with heap := hset s.heap o k v } := by
  show (if _ then _ else _) = _
  split
  · next hcond =>
    rw [if_pos (show hget s.heap o k ≠ v from hcond)]
    rfl
  · next hcond =>
    rw [if_neg (show ¬hget s.heap o k ≠ v from hcond)]
    rfl

theorem cSet_wrap_eq (env : Env) (f : Nat) (s : RState) (r : RRef) (pid : Nat)
    (k : String) (v : Val) :
    exec env (f + 1) (Call.cSet s (RRef.rwrap r pid) k v)
      = if (exec env f (Call.cSet (readRef s r k).1 r k v)).exn
           || (exec env f (Call.cSet (readRef s r k).1 r k v)).oom then
          exec env f (Call.cSet (readRef s r k).1 r k v)
        else if (readRef s r k).2 ≠ v then
          { exec env f (Call.cTrig
              (exec env f (Call.cSet (readRef s r k).1 r k v)).st (idOf r) k [])
            with log := (exec env f (Call.cSet (readRef s r k).1 r k v)).log
              ++ (exec env f (Call.cTrig
                (exec env f (Call.cSet (readRef s r k).1 r k v)).st
                (idOf r) k [])).log }
        else exec env f (Call.cSet (readRef s r k).1 r k v) := rfl

theorem set_chain_invokes (env : Env) : ∀ (r : RRef) (fuel : Nat) (s : RState)
    (pid : Nat) (k : String) (v : Val),
    s.active = none →
    isObjV v = false →
    hget s.heap (baseOf r) k ≠ v →
    (∀ t ∈ layerTgts (RRef.rwrap r pid), ∀ e2 ∈ depsGet s.deps t k,
      Benign (env e2) = true) →
    (∀ t ∈ layerTgts (RRef.rwrap r pid), ∀ e2 ∈ depsGet s.deps t k,
      e2 ∈ depsGet s.deps (Tgt.traw (baseOf r)) k) →
    (∀ t ∈ layerTgts (RRef.rwrap r pid), (depsGet s.deps t k).Nodup) →
    (exec env fuel (Call.cSet s (RRef.rwrap r pid) k v)).oom = false →
    (exec env fuel (Call.cSet s (RRef.rwrap r pid) k v)).exn = false
    ∧ hget (exec env fuel (Call.cSet s (RRef.rwrap r pid) k v)).st.heap
        (baseOf r) k = v
    ∧ (exec env fuel (Call.cSet s (RRef.rwrap r pid) k v)).st.deps = s.deps
    ∧ ∀ e2, e2 ∈ invEvents (exec env fuel
          (Call.cSet s (RRef.rwrap r pid) k v)).log
        ↔ e2 ∈ depsGet s.deps (Tgt.traw (baseOf r)) k := by
  intro r
  induction r with
  | rraw o =>
    intro fuel s pid k v ha hv hw hben hsub hnds ho
    match fuel, ho with
    | 0, ho => exact absurd ho (by simp [exec])
    | 1, ho => exact absurd ho (by simp [exec])
    | f + 2, ho =>
      have hw0 : hget s.heap o k ≠ v := hw
      rw [cSet_raw_wrapper_eq, if_pos hw0] at ho ⊢
      have hmm : Tgt.traw o ∈ layerTgts (RRef.rwrap (RRef.rraw o) pid) := by
        show Tgt.traw o ∈ layerTgts (RRef.rraw o) ++ [idOf (RRef.rraw o)]
        simp [layerTgts, idOf]
      have hcl : ∀ e2 ∈ depsGet
          ({ s with heap := hset s.heap o k v } : RState).deps (Tgt.traw o) k,
          RunsClean env (coreOf ({ s with heap := hset s.heap o k v } : RState))
            (env e2) := by
        intro e2 he2
        exact benign_runsClean env _ _ (hben (Tgt.traw o) hmm e2 he2) ha
      have htc := trig_clean env (f + 1) { s with heap := hset s.heap o k v }
        (Tgt.traw o) k [] hcl (hnds (Tgt.traw o) hmm) ho
      have hh : (exec env (f + 1) (Call.cTrig
          { s with heap := hset s.heap o k v } (Tgt.traw o) k [])).st.heap
          = hset s.heap o k v := congrArg Core.heap htc.2.1
      have hd : (exec env (f + 1) (Call.cTrig
          { s with heap := hset s.heap o k v } (Tgt.traw o) k [])).st.deps
          = s.deps := congrArg Core.deps htc.2.1
      refine ⟨htc.1, ?_, hd, ?_⟩
      · rw [hh]
        exact hget_hset o k v s.heap
      · intro e2
        rw [htc.2.2.1, filter_contains_nil]
        exact Iff.rfl
  | rwrap r2 pid2 ih =>
    intro fuel s pid k v ha hv hw hben hsub hnds ho
    match fuel, ho with
    | 0, ho => exact absurd ho (by simp [exec])
    | f + 1, ho =>
      rw [cSet_wrap_eq] at ho ⊢
      have hheapP : (readRef s (RRef.rwrap r2 pid2) k).1.heap = s.heap :=
        readRef_heap _ s k
      have hdepsP : (readRef s (RRef.rwrap r2 pid2) k).1.deps = s.deps :=
        readRef_deps_none _ s k ha
      have hactP : (readRef s (RRef.rwrap r2 pid2) k).1.active = none := by
        rw [readRef_active]
        exact ha
      have hold : (readRef s (RRef.rwrap r2 pid2) k).2 ≠ v := by
        rcases readRef_val_cases (RRef.rwrap r2 pid2) s k with hc | ⟨o3, p3, hc⟩
        · rw [hc]
          exact hw
        · rw [hc]
          intro hcon
          rw [← hcon] at hv
          simp [isObjV] at hv
      have hmemL : ∀ t2 ∈ layerTgts (RRef.rwrap r2 pid2),
          t2 ∈ layerTgts (RRef.rwrap (RRef.rwrap r2 pid2) pid) := by
        intro t2 ht2
        show t2 ∈ layerTgts (RRef.rwrap r2 pid2) ++ [idOf (RRef.rwrap r2 pid2)]
        exact List.mem_append_left _ ht2
      have hmemT : idOf (RRef.rwrap r2 pid2)
          ∈ layerTgts (RRef.rwrap (RRef.rwrap r2 pid2) pid) := by
        show _ ∈ layerTgts (RRef.rwrap r2 pid2) ++ [idOf (RRef.rwrap r2 pid2)]
        exact List.mem_append_right _ (List.mem_singleton.mpr rfl)
      have hbenP : ∀ t2 ∈ layerTgts (RRef.rwrap r2 pid2),
          ∀ e2 ∈ depsGet (readRef s (RRef.rwrap r2 pid2) k).1.deps t2 k,
          Benign (env e2) = true := by
        intro t2 ht2 e2 he2
        rw [hdepsP] at he2
        exact hben t2 (hmemL t2 ht2) e2 he2
      have hsubP : ∀ t2 ∈ layerTgts (RRef.rwrap r2 pid2),
          ∀ e2 ∈ depsGet (readRef s (RRef.rwrap r2 pid2) k).1.deps t2 k,
          e2 ∈ depsGet (readRef s (RRef.rwrap r2 pid2) k).1.deps
            (Tgt.traw (baseOf r2)) k := by
        intro t2 ht2 e2 he2
        rw [hdepsP] at he2 ⊢
        exact hsub t2 (hmemL t2 ht2) e2 he2
      have hndP : ∀ t2 ∈ layerTgts (RRef.rwrap r2 pid2),
          (depsGet (readRef s (RRef.rwrap r2 pid2) k).1.deps t2 k).Nodup := by
        intro t2 ht2
        rw [hdepsP]
        exact hnds t2 (hmemL t2 ht2)
      have hwP : hget (readRef s (RRef.rwrap r2 pid2) k).1.heap (baseOf r2) k
          ≠ v := by
        rw [hheapP]
        exact hw
      by_cases hbad : ((exec env f (Call.cSet (readRef s (RRef.rwrap r2 pid2) k).1
          (RRef.rwrap r2 pid2) k v)).exn
          || (exec env f (Call.cSet (readRef s (RRef.rwrap r2 pid2) k).1
            (RRef.rwrap r2 pid2) k v)).oom) = true
      · rw [if_pos hbad] at ho ⊢
        have ihh := ih f (readRef s (RRef.rwrap r2 pid2) k).1 pid2 k v
          hactP hv hwP hbenP hsubP hndP ho
        rw [ihh.1, ho] at hbad
        simp at hbad
      · rw [if_neg hbad] at ho ⊢
        rw [if_pos hold] at ho ⊢
        have hoI : (exec env f (Call.cSet (readRef s (RRef.rwrap r2 pid2) k).1
            (RRef.rwrap r2 pid2) k v)).oom = false := by
          cases hoom : (exec env f (Call.cSet (readRef s (RRef.rwrap r2 pid2) k).1
              (RRef.rwrap r2 pid2) k v)).oom
          · rfl
          · rw [hoom] at hbad
            simp at hbad
        have ihh := ih f (readRef s (RRef.rwrap r2 pid2) k).1 pid2 k v
          hactP hv hwP hbenP hsubP hndP hoI
        have hdeps1 : (exec env f (Call.cSet (readRef s (RRef.rwrap r2 pid2) k).1
            (RRef.rwrap r2 pid2) k v)).st.deps = s.deps := by
          rw [ihh.2.2.1, hdepsP]
        have hact1 : (exec env f (Call.cSet (readRef s (RRef.rwrap r2 pid2) k).1
            (RRef.rwrap r2 pid2) k v)).st.active = none := by
          rw [exec_active]
          exact hactP
        have hcl2 : ∀ e2 ∈ depsGet (exec env f (Call.cSet
            (readRef s (RRef.rwrap r2 pid2) k).1 (RRef.rwrap r2 pid2) k v)).st.deps
            (idOf (RRef.rwrap r2 pid2)) k,
            RunsClean env (coreOf (exec env f (Call.cSet
              (readRef s (RRef.rwrap r2 pid2) k).1
              (RRef.rwrap r2 pid2) k v)).st) (env e2) := by
          intro e2 he2
          rw [hdeps1] at he2
          exact benign_runsClean env _ _
            (hben (idOf (RRef.rwrap r2 pid2)) hmemT e2 he2) hact1
        have hnd2 : (depsGet (exec env f (Call.cSet
            (readRef s (RRef.rwrap r2 pid2) k).1 (RRef.rwrap r2 pid2) k v)).st.deps
            (idOf (RRef.rwrap r2 pid2)) k).Nodup := by
          rw [hdeps1]
          exact hnds (idOf (RRef.rwrap r2 pid2)) hmemT
        have htc := trig_clean env f (exec env f (Call.cSet
            (readRef s (RRef.rwrap r2 pid2) k).1 (RRef.rwrap r2 pid2) k v)).st
          (idOf (RRef.rwrap r2 pid2)) k [] hcl2 hnd2 ho
        have hh2 : (exec env f (Call.cTrig (exec env f (Call.cSet
            (readRef s (RRef.rwrap r2 pid2) k).1 (RRef.rwrap r2 pid2) k v)).st
            (idOf (RRef.rwrap r2 pid2)) k [])).st.heap
            = (exec env f (Call.cSet (readRef s (RRef.rwrap r2 pid2) k).1
              (RRef.rwrap r2 pid2) k v)).st.heap :=
          congrArg Core.heap htc.2.1
        have hd2 : (exec env f (Call.cTrig (exec env f (Call.cSet
            (readRef s (RRef.rwrap r2 pid2) k).1 (RRef.rwrap r2 pid2) k v)).st
            (idOf (RRef.rwrap r2 pid2)) k [])).st.deps
            = (exec env f (Call.cSet (readRef s (RRef.rwrap r2 pid2) k).1
              (RRef.rwrap r2 pid2) k v)).st.deps :=
          congrArg Core.deps htc.2.1
        refine ⟨htc.1, ?_, ?_, ?_⟩
        · show hget (exec env f (Call.cTrig _ _ k [])).st.heap (baseOf r2) k = v
          rw [hh2]
          exact ihh.2.1
        · show (exec env f (Call.cTrig _ _ k [])).st.deps = s.deps
          rw [hd2, hdeps1]
        · intro e2
          show e2 ∈ invEvents ((exec env f (Call.cSet
              (readRef s (RRef.rwrap r2 pid2) k).1 (RRef.rwrap r2 pid2) k v)).log
              ++ (exec env f (Call.cTrig (exec env f (Call.cSet
                (readRef s (RRef.rwrap r2 pid2) k).1
                (RRef.rwrap r2 pid2) k v)).st
                (idOf (RRef.rwrap r2 pid2)) k [])).log)
            ↔ e2 ∈ depsGet s.deps (Tgt.traw (baseOf r2)) k
          rw [invEvents_append]
          constructor
          · intro hin
            rcases List.mem_append.mp hin with hin1 | hin2
            · have hm := (ihh.2.2.2 e2).mp hin1
              rw [hdepsP] at hm
              exact hm
            · rw [htc.2.2.1, filter_contains_nil, hdeps1] at hin2
              exact hsub (idOf (RRef.rwrap r2 pid2)) hmemT e2 hin2
          · intro hin
            refine List.mem_append_left _ ((ihh.2.2.2 e2).mpr ?_)
            rw [hdepsP]
            exact hin

/-- C1: evaluating `updateChildren` at a parent whose three live text
children match `oldChildren = ["a","b","c"]` with the strictly shorter
`newChildren = ["x"]` leaves the residual node `"c"`: removal goes by
current child index inside an ascending loop, so after removing the child
at index 1 the former last child shifts down and the removal at index 2
misses it.  The live children do not match `newChildren`, refuting the
no-residual-nodes contract at this input. -/
theorem updateChildren_residual_child :
    updateChildren 10
        (Dom.del "div" [] [] [] "" none none
          [Dom.dtext "a", Dom.dtext "b", Dom.dtext "c"])
        [VN.vs "x"] [VN.vs "a", VN.vs "b", VN.vs "c"]
      = some (Dom.del "div" [] [] [] "" none none
          [Dom.dtext "x", Dom.dtext "c"])
    ∧ [Dom.dtext "x", Dom.dtext "c"] ≠ [createElement (VN.vs "x")] := by
  exact ⟨rfl, by simp [createElement]⟩

/-- C10 counterexample: when `oldNode` is also falsy (here the empty
string), `updateElement` with `newNode = ""` does not remove the live
child at the index; the no-old-node case runs first and appends an empty
text node, so the claimed unconditional removal is false. -/
theorem updateElement_empty_both_appends :
    updateElement 5 (Dom.del "div" [] [] [] "" none none [Dom.dtext "x"])
        (some (VN.vs "")) (some (VN.vs "")) 0
      = some (Dom.del "div" [] [] [] "" none none
          [Dom.dtext "x", Dom.dtext ""])
    ∧ childrenOf (Dom.del "div" [] [] [] "" none none
          [Dom.dtext "x", Dom.dtext ""])
      ≠ (childrenOf (Dom.del "div" [] [] [] "" none none
          [Dom.dtext "x"])).eraseIdx 0 := by
  exact ⟨rfl, by simp [childrenOf]⟩

/-- C10 amended: when `newNode` is the empty string and `oldNode` is
truthy, the live child at the index is removed and the text-update case is
never reached; when `oldNode` is the empty string (falsy), the no-old-node
case runs instead and a freshly created node for `newNode` is appended to
the parent, rather than the live child at the index being updated or
replaced. -/
theorem updateElement_empty_string_falsy (fuel : Nat) (p : Dom) (idx : Nat)
    (oldN : Option VN) (nn : VN)
    (hOld : falsyO oldN = false) (hNew : falsyO (some nn) = false) :
    updateElement (fuel + 1) p (some (VN.vs "")) oldN idx
      = some (setChildren p ((childrenOf p).eraseIdx idx))
    ∧ updateElement (fuel + 1) p (some nn) (some (VN.vs "")) idx
      = some (setChildren p (childrenOf p ++ [createElement nn])) := by
  have h2 : falsyO (some (VN.vs "")) = true := rfl
  constructor
  · simp [updateElement, upd, hOld, h2]
  · simp [updateElement, upd, h2]

/-- C10 witness: the amended theorem applied to a parent with one live
text child, a truthy old text node and a truthy replacement node. -/
theorem updateElement_empty_string_falsy_witness :
    updateElement 1 (Dom.del "div" [] [] [] "" none none [Dom.dtext "y"])
        (some (VN.vs "")) (some (VN.vs "y")) 0
      = some (setChildren (Dom.del "div" [] [] [] "" none none [Dom.dtext "y"])
          ((childrenOf (Dom.del "div" [] [] [] "" none none [Dom.dtext "y"])).eraseIdx 0))
    ∧ updateElement 1 (Dom.del "div" [] [] [] "" none none [Dom.dtext "y"])
        (some (VN.vs "z")) (some (VN.vs "")) 0
      = some (setChildren (Dom.del "div" [] [] [] "" none none [Dom.dtext "y"])
          (childrenOf (Dom.del "div" [] [] [] "" none none [Dom.dtext "y"])
            ++ [createElement (VN.vs "z")])) :=
  updateElement_empty_string_falsy 0
    (Dom.del "div" [] [] [] "" none none [Dom.dtext "y"]) 0
    (some (VN.vs "y")) (VN.vs "z") rfl rfl

/-! ## Theorems: reactivity (C2, C4) -/

/-- C2 counterexample: in the re-run scenario, writing `flag = 1` does
re-invoke effect 0 synchronously and the re-run does read property `b`
(the read event is in the log with the current value of `b`), yet no
dependency on `b` is recorded — its bucket stays empty — and a subsequent
write to `b` invokes nothing.  Under the claim, the re-run would have been
recorded against the active-effect slot, `b` would carry a dependency on
effect 0, and the write to `b` would re-invoke it. -/
theorem trigger_rerun_not_recorded :
    Ev.inv 0 ∈ (exec envC2 20 (Call.cSet (effect envC2 20 s0C2 0).st
        wC2 "flag" (Val.vnat 1))).log
    ∧ Ev.rd 0 "b" (Val.vnat 3) ∈ (exec envC2 20 (Call.cSet
        (effect envC2 20 s0C2 0).st wC2 "flag" (Val.vnat 1))).log
    ∧ depsGet (exec envC2 20 (Call.cSet (effect envC2 20 s0C2 0).st
        wC2 "flag" (Val.vnat 1))).st.deps (Tgt.traw 0) "b" = []
    ∧ invEvents (exec envC2 20 (Call.cSet (exec envC2 20 (Call.cSet
        (effect envC2 20 s0C2 0).st wC2 "flag" (Val.vnat 1))).st
        wC2 "b" (Val.vnat 9))).log = [] := by
  decide

/-- C2 amended: a `trigger` re-invocation uses whatever the global
active-effect slot currently holds — it never sets or clears the slot.
After a normal registration the slot is `null`, so property reads during
re-runs (and everything else a write starts synchronously) record no
dependencies at all: the interpreter leaves both the slot and the
dependency map unchanged whenever the slot is empty at the start. -/
theorem trigger_rerun_no_recording (env : Env) (fuel : Nat) (c : Call)
    (h : (stateOf c).active = none) :
    (exec env fuel c).st.active = none
    ∧ (exec env fuel c).st.deps = (stateOf c).deps := by
  constructor
  · rw [exec_active]; exact h
  · exact exec_deps_none env fuel c h

/-- C2 witness: the amended theorem applied to the concrete re-run
scenario write. -/
theorem trigger_rerun_no_recording_witness :
    (exec envC2 20 (Call.cSet (effect envC2 20 s0C2 0).st
        wC2 "flag" (Val.vnat 1))).st.active = none
    ∧ (exec envC2 20 (Call.cSet (effect envC2 20 s0C2 0).st
        wC2 "flag" (Val.vnat 1))).st.deps
      = (stateOf (Call.cSet (effect envC2 20 s0C2 0).st
        wC2 "flag" (Val.vnat 1))).deps :=
  trigger_rerun_no_recording envC2 20
    (Call.cSet (effect envC2 20 s0C2 0).st wC2 "flag" (Val.vnat 1)) (by decide)

/-- C4: when the function passed to `effect` throws during its initial
synchronous run, the run result carries the exception to the caller, the
global active-effect slot is left set to the throwing function, a
subsequent reactive read through a wrapper — performed outside any
effect — is tracked against that function (its bucket becomes exactly
that function), and a subsequent changed-value write to the property so
read re-invokes the throwing function. -/
theorem effect_throw_slot_stuck (env : Env) (fuel f2 : Nat) (s : RState)
    (e o2 pid pid2 : Nat) (k2 : String) (v : Val)
    (hx : (effect env fuel s e).exn = true)
    (hb : depsGet (effect env fuel s e).st.deps (Tgt.traw o2) k2 = [])
    (hv : hget (readRef (effect env fuel s e).st
      (RRef.rwrap (RRef.rraw o2) pid) k2).1.heap o2 k2 ≠ v)
    (ho : (exec env f2 (Call.cSet (readRef (effect env fuel s e).st
      (RRef.rwrap (RRef.rraw o2) pid) k2).1
      (RRef.rwrap (RRef.rraw o2) pid2) k2 v)).oom = false) :
    (effect env fuel s e).st.active = some e
    ∧ depsGet (readRef (effect env fuel s e).st
        (RRef.rwrap (RRef.rraw o2) pid) k2).1.deps (Tgt.traw o2) k2 = [e]
    ∧ Ev.inv e ∈ (exec env f2 (Call.cSet (readRef (effect env fuel s e).st
        (RRef.rwrap (RRef.rraw o2) pid) k2).1
        (RRef.rwrap (RRef.rraw o2) pid2) k2 v)).log := by
  have h1 := effect_exn_active env fuel s e hx
  have hbucket : depsGet (readRef (effect env fuel s e).st
      (RRef.rwrap (RRef.rraw o2) pid) k2).1.deps (Tgt.traw o2) k2 = [e] := by
    rw [readRef_deps_wrap]
    have hid : (readRef (effect env fuel s e).st (RRef.rraw o2) k2).1
        = (effect env fuel s e).st := rfl
    rw [hid]
    simp only [idOf]
    rw [track_deps_some _ _ _ e h1, depsGet_depsAdd_same, hb]
    simp
  exact ⟨h1, hbucket,
    cSet_single_wrapper_invokes env f2 _ o2 k2 pid2 v e hbucket hv ho⟩

/-- C6: writes through a reactive wrapper trigger exactly on change.  With
no recording in progress and a bucket of read-only effects on (object,
key): writing a value different from the current one completes without
exception, applies the underlying write, re-invokes exactly the effects
of that bucket, once each in insertion order, and every read of the
property an effect performs during the re-run observes the new value;
writing an equal value still performs the underlying write but re-invokes
nothing. -/
theorem reactive_write_trigger_on_change (env : Env) (fuel : Nat) (s : RState)
    (o pid : Nat) (k : String) (v : Val)
    (ha : s.active = none)
    (hb : ∀ e ∈ depsGet s.deps (Tgt.traw o) k, Benign (env e) = true)
    (hnd : (depsGet s.deps (Tgt.traw o) k).Nodup)
    (ho : (exec env fuel (Call.cSet s (RRef.rwrap (RRef.rraw o) pid) k v)).oom
      = false) :
    (hget s.heap o k ≠ v →
      (exec env fuel (Call.cSet s (RRef.rwrap (RRef.rraw o) pid) k v)).exn = false
      ∧ hget (exec env fuel
          (Call.cSet s (RRef.rwrap (RRef.rraw o) pid) k v)).st.heap o k = v
      ∧ invEvents (exec env fuel
          (Call.cSet s (RRef.rwrap (RRef.rraw o) pid) k v)).log
          = depsGet s.deps (Tgt.traw o) k
      ∧ ∀ x, Ev.rd o k x
          ∈ (exec env fuel (Call.cSet s (RRef.rwrap (RRef.rraw o) pid) k v)).log →
          x = unwrapV v)
    ∧ (hget s.heap o k = v →
      (exec env fuel (Call.cSet s (RRef.rwrap (RRef.rraw o) pid) k v)).exn = false
      ∧ hget (exec env fuel
          (Call.cSet s (RRef.rwrap (RRef.rraw o) pid) k v)).st.heap o k = v
      ∧ invEvents (exec env fuel
          (Call.cSet s (RRef.rwrap (RRef.rraw o) pid) k v)).log = []) := by
  match fuel, ho with
  | 0, ho => exact absurd ho (by simp [exec])
  | 1, ho => exact absurd ho (by simp [exec])
  | f + 2, ho =>
    rw [cSet_raw_wrapper_eq] at ho ⊢
    by_cases hw : hget s.heap o k ≠ v
    · rw [if_pos hw] at ho ⊢
      have hcl : ∀ e ∈ depsGet
          ({ s with heap := hset s.heap o k v } : RState).deps (Tgt.traw o) k,
          RunsClean env
            (coreOf ({ s with heap := hset s.heap o k v } : RState)) (env e) := by
        intro e he
        exact benign_runsClean env _ (env e) (hb e he) ha
      have htc := trig_clean env (f + 1) { s with heap := hset s.heap o k v }
        (Tgt.traw o) k [] hcl hnd ho
      refine ⟨fun _ => ⟨htc.1, ?_, ?_, ?_⟩, fun he => absurd he hw⟩
      · have hh : (exec env (f + 1) (Call.cTrig
            { s with heap := hset s.heap o k v } (Tgt.traw o) k [])).st.heap
            = hset s.heap o k v := congrArg Core.heap htc.2.1
        rw [hh, hget_hset]
      · rw [htc.2.2.1, filter_contains_nil]
      · intro x hx
        have hv := htc.2.2.2 o k x hx
        rw [hget_hset] at hv
        exact hv
    · rw [if_neg hw] at ho ⊢
      have hw2 : hget s.heap o k = v := not_not.mp hw
      refine ⟨fun hcon => absurd hw2 hcon, fun _ => ⟨rfl, ?_, rfl⟩⟩
      exact hget_hset o k v s.heap

/-- C6 witness: the theorem applied to the trigger-on-change scenario:
effect 5 sits in the bucket of property `x` (current value 1) and the
write assigns 2. -/
theorem reactive_write_trigger_on_change_witness :
    (exec envC6 10 (Call.cSet s0C6 (RRef.rwrap (RRef.rraw 0) 9) "x"
        (Val.vnat 2))).exn = false
    ∧ hget (exec envC6 10 (Call.cSet s0C6 (RRef.rwrap (RRef.rraw 0) 9) "x"
        (Val.vnat 2))).st.heap 0 "x" = Val.vnat 2
    ∧ invEvents (exec envC6 10 (Call.cSet s0C6 (RRef.rwrap (RRef.rraw 0) 9) "x"
        (Val.vnat 2))).log = depsGet s0C6.deps (Tgt.traw 0) "x"
    ∧ ∀ x, Ev.rd 0 "x" x ∈ (exec envC6 10 (Call.cSet s0C6
        (RRef.rwrap (RRef.rraw 0) 9) "x" (Val.vnat 2))).log →
        x = unwrapV (Val.vnat 2) :=
  (reactive_write_trigger_on_change envC6 10 s0C6 0 9 "x" (Val.vnat 2)
    (by decide) (by decide) (by decide) (by decide)).1 (by decide)

/-- C5: dependency buckets are keyed by the raw underlying object.  A
read through any chain of proxy wrappers over a raw object (one wrapper,
a fresh wrapper from a nested access, or a wrapper of a wrapper),
performed while an effect is recording, lands that effect in the (raw
object, key) bucket; and a write of a changed value (a non-proxy value
differing from the stored one) through any such chain, performed outside
any recording, invokes exactly the effects of the (raw object, key)
bucket — the proxy-keyed buckets of the chain, which reads through inner
wrappers may also have populated, are subsets of the raw bucket and so
contribute no further effects. -/
theorem reactive_raw_bucket_tracking (env : Env) :
    (∀ (r : RRef) (s : RState) (k : String) (e pid : Nat),
      s.active = some e →
      e ∈ depsGet (readRef s (RRef.rwrap r pid) k).1.deps
        (Tgt.traw (baseOf r)) k)
    ∧ (∀ (r : RRef) (fuel : Nat) (s : RState) (pid : Nat) (k : String) (v : Val),
      s.active = none →
      isObjV v = false →
      hget s.heap (baseOf r) k ≠ v →
      (∀ t ∈ layerTgts (RRef.rwrap r pid), ∀ e2 ∈ depsGet s.deps t k,
        Benign (env e2) = true) →
      (∀ t ∈ layerTgts (RRef.rwrap r pid), ∀ e2 ∈ depsGet s.deps t k,
        e2 ∈ depsGet s.deps (Tgt.traw (baseOf r)) k) →
      (∀ t ∈ layerTgts (RRef.rwrap r pid), (depsGet s.deps t k).Nodup) →
      (exec env fuel (Call.cSet s (RRef.rwrap r pid) k v)).oom = false →
      ∀ e2, e2 ∈ invEvents (exec env fuel
          (Call.cSet s (RRef.rwrap r pid) k v)).log
        ↔ e2 ∈ depsGet s.deps (Tgt.traw (baseOf r)) k) :=
  ⟨fun r s k e pid h => readRef_tracks r s k e pid h,
   fun r fuel s pid k v h1 h2 h3 h4 h5 h6 h7 =>
     (set_chain_invokes env r fuel s pid k v h1 h2 h3 h4 h5 h6 h7).2.2.2⟩

/-- C5 witness: a recording read through a wrapper of a wrapper of raw
object 0 tracks effect 3 into the raw bucket, and a changed-value write
through the same two-wrapper chain re-invokes effect 5, the sole occupant
of the raw bucket. -/
theorem reactive_raw_bucket_tracking_witness :
    3 ∈ depsGet (readRef
        { heap := [(0, [("x", Val.vnat 1)])], deps := [], active := some 3,
          nextPid := 0 }
        (RRef.rwrap (RRef.rwrap (RRef.rraw 0) 21) 22) "x").1.deps
        (Tgt.traw 0) "x"
    ∧ 5 ∈ invEvents (exec envC6 15 (Call.cSet s0C6
        (RRef.rwrap (RRef.rwrap (RRef.rraw 0) 21) 22) "x" (Val.vnat 2))).log :=
  ⟨(reactive_raw_bucket_tracking envC6).1 (RRef.rwrap (RRef.rraw 0) 21) _ "x" 3 22
      rfl,
   ((reactive_raw_bucket_tracking envC6).2 (RRef.rwrap (RRef.rraw 0) 21) 15 s0C6
      22 "x" (Val.vnat 2) (by decide) (by decide) (by decide) (by decide)
      (by decide) (by decide) (by decide) 5).mpr (by decide)⟩

/-- C7: exception semantics of trigger.  With a bucket `l1 ++ eT :: l2`
of read-only effects around a guard effect `eT` that reads the property
and throws exactly when it equals `vBad`: a write of `vBad` propagates
the exception to the caller of the write, invokes exactly `l1 ++ [eT]`
(the effects after the thrower are skipped for that cycle), removes
nothing from the dependency map, and leaves the write applied; a later
write of a non-throwing value to the same property invokes every effect
in the bucket again, without exception. -/
theorem trigger_exception_semantics (env : Env) (f1 f2 : Nat) (s : RState)
    (o pid1 pid2 pidT eT : Nat) (k : String) (vBad vGood : Val)
    (l1 l2 : List Nat)
    (ha : s.active = none)
    (hbucket : depsGet s.deps (Tgt.traw o) k = l1 ++ eT :: l2)
    (hnd : (depsGet s.deps (Tgt.traw o) k).Nodup)
    (hb1 : ∀ e ∈ l1, Benign (env e) = true)
    (hb2 : ∀ e ∈ l2, Benign (env e) = true)
    (hT : env eT = [Stmt.sif (RRef.rwrap (RRef.rraw o) pidT) k vBad StmtF.fthrow])
    (hprim : isObjV vBad = false)
    (hw : hget s.heap o k ≠ vBad)
    (hgg : vGood ≠ vBad)
    (ho1 : (exec env f1
      (Call.cSet s (RRef.rwrap (RRef.rraw o) pid1) k vBad)).oom = false)
    (ho2 : (exec env f2 (Call.cSet
      (exec env f1 (Call.cSet s (RRef.rwrap (RRef.rraw o) pid1) k vBad)).st
      (RRef.rwrap (RRef.rraw o) pid2) k vGood)).oom = false) :
    (exec env f1 (Call.cSet s (RRef.rwrap (RRef.rraw o) pid1) k vBad)).exn = true
    ∧ invEvents (exec env f1
        (Call.cSet s (RRef.rwrap (RRef.rraw o) pid1) k vBad)).log = l1 ++ [eT]
    ∧ (exec env f1
        (Call.cSet s (RRef.rwrap (RRef.rraw o) pid1) k vBad)).st.deps = s.deps
    ∧ hget (exec env f1
        (Call.cSet s (RRef.rwrap (RRef.rraw o) pid1) k vBad)).st.heap o k = vBad
    ∧ (exec env f2 (Call.cSet
        (exec env f1 (Call.cSet s (RRef.rwrap (RRef.rraw o) pid1) k vBad)).st
        (RRef.rwrap (RRef.rraw o) pid2) k vGood)).exn = false
    ∧ invEvents (exec env f2 (Call.cSet
        (exec env f1 (Call.cSet s (RRef.rwrap (RRef.rraw o) pid1) k vBad)).st
        (RRef.rwrap (RRef.rraw o) pid2) k vGood)).log = l1 ++ eT :: l2 := by
  have hpart2 : ∀ (fW : Nat) (s1 : RState),
      s1.heap = hset s.heap o k vBad →
      s1.deps = s.deps →
      s1.active = none →
      (exec env fW (Call.cSet s1 (RRef.rwrap (RRef.rraw o) pid2) k vGood)).oom
        = false →
      (exec env fW (Call.cSet s1 (RRef.rwrap (RRef.rraw o) pid2) k vGood)).exn
        = false
      ∧ invEvents (exec env fW (Call.cSet s1
          (RRef.rwrap (RRef.rraw o) pid2) k vGood)).log = l1 ++ eT :: l2 := by
    intro fW s1 hh1 hd1 ha1 hoW
    match fW, hoW with
    | 0, hoW => exact absurd hoW (by simp [exec])
    | 1, hoW => exact absurd hoW (by simp [exec])
    | g2 + 2, hoW =>
      have hwv : hget s1.heap o k ≠ vGood := by
        rw [hh1, hget_hset]
        exact Ne.symm hgg
      rw [cSet_raw_wrapper_eq, if_pos hwv] at hoW ⊢
      have hdeps3 : depsGet
          ({ s1 with heap := hset s1.heap o k vGood } : RState).deps
          (Tgt.traw o) k = l1 ++ eT :: l2 := by
        show depsGet s1.deps (Tgt.traw o) k = _
        rw [hd1, hbucket]
      have hact3 : ({ s1 with heap := hset s1.heap o k vGood } : RState).active
          = none := ha1
      have hclean : ∀ e ∈ depsGet
          ({ s1 with heap := hset s1.heap o k vGood } : RState).deps
          (Tgt.traw o) k,
          RunsClean env
            (coreOf ({ s1 with heap := hset s1.heap o k vGood } : RState))
            (env e) := by
        intro e he
        rw [hdeps3] at he
        rcases List.mem_append.mp he with he1 | he2
        · exact benign_runsClean env _ _ (hb1 e he1) hact3
        · rcases List.mem_cons.mp he2 with he3 | he4
          · subst he3
            rw [hT]
            refine sif_neq_clean env _ _ k vBad hprim ?_ hact3
            show hget (hset s1.heap o k vGood) o k ≠ vBad
            rw [hget_hset]
            exact hgg
          · exact benign_runsClean env _ _ (hb2 e he4) hact3
      have hnd3 : (depsGet
          ({ s1 with heap := hset s1.heap o k vGood } : RState).deps
          (Tgt.traw o) k).Nodup := by
        show (depsGet s1.deps (Tgt.traw o) k).Nodup
        rw [hd1]
        exact hnd
      have ht2 := trig_clean env (g2 + 1)
        { s1 with heap := hset s1.heap o k vGood } (Tgt.traw o) k []
        hclean hnd3 hoW
      refine ⟨ht2.1, ?_⟩
      rw [ht2.2.2.1, filter_contains_nil, hdeps3]
  match f1, ho1, ho2 with
  | 0, ho1, ho2 => exact absurd ho1 (by simp [exec])
  | 1, ho1, ho2 => exact absurd ho1 (by simp [exec])
  | g + 2, ho1, ho2 =>
    rw [cSet_raw_wrapper_eq, if_pos hw] at ho1 ho2 ⊢
    have hfil : (depsGet ({ s with heap := hset s.heap o k vBad } : RState).deps
        (Tgt.traw o) k).filter (fun x => !(([] : List Nat).contains x))
        = l1 ++ eT :: l2 := by
      rw [filter_contains_nil]
      exact hbucket
    have hclean1 : ∀ e ∈ l1, RunsClean env
        (coreOf ({ s with heap := hset s.heap o k vBad } : RState)) (env e) :=
      fun e he => benign_runsClean env _ _ (hb1 e he) ha
    have hthrow : RunsThrow env
        (coreOf ({ s with heap := hset s.heap o k vBad } : RState)) (env eT) := by
      rw [hT]
      exact sif_eq_throw env _ _ k vBad hprim (hget_hset o k vBad s.heap) ha
    have ht1 := trig_throw env l1 (g + 1) { s with heap := hset s.heap o k vBad }
      (Tgt.traw o) k [] l2 eT hfil hnd hclean1 hthrow ho1
    have hheap1 : (exec env (g + 1) (Call.cTrig
        { s with heap := hset s.heap o k vBad } (Tgt.traw o) k [])).st.heap
        = hset s.heap o k vBad := congrArg Core.heap ht1.2.1
    have hdeps1 : (exec env (g + 1) (Call.cTrig
        { s with heap := hset s.heap o k vBad } (Tgt.traw o) k [])).st.deps
        = s.deps := congrArg Core.deps ht1.2.1
    have hact1 : (exec env (g + 1) (Call.cTrig
        { s with heap := hset s.heap o k vBad } (Tgt.traw o) k [])).st.active
        = none := by
      have h2 := congrArg Core.active ht1.2.1
      exact h2.trans ha
    exact ⟨ht1.1, ht1.2.2, hdeps1, by rw [hheap1, hget_hset],
      (hpart2 f2 _ hheap1 hdeps1 hact1 ho2).1,
      (hpart2 f2 _ hheap1 hdeps1 hact1 ho2).2⟩

/-- C7 witness: the theorem applied to the exception scenario: the bucket
of `x` holds the reader 1, the guard 2 (throws when `x` is 99) and the
reader 3; writing 99 then 5. -/
theorem trigger_exception_semantics_witness :
    (exec envC7 20 (Call.cSet s0C7 (RRef.rwrap (RRef.rraw 0) 14) "x"
        (Val.vnat 99))).exn = true
    ∧ invEvents (exec envC7 20 (Call.cSet s0C7 (RRef.rwrap (RRef.rraw 0) 14)
        "x" (Val.vnat 99))).log = [1] ++ [2]
    ∧ (exec envC7 20 (Call.cSet s0C7 (RRef.rwrap (RRef.rraw 0) 14) "x"
        (Val.vnat 99))).st.deps = s0C7.deps
    ∧ hget (exec envC7 20 (Call.cSet s0C7 (RRef.rwrap (RRef.rraw 0) 14) "x"
        (Val.vnat 99))).st.heap 0 "x" = Val.vnat 99
    ∧ (exec envC7 20 (Call.cSet (exec envC7 20 (Call.cSet s0C7
        (RRef.rwrap (RRef.rraw 0) 14) "x" (Val.vnat 99))).st
        (RRef.rwrap (RRef.rraw 0) 15) "x" (Val.vnat 5))).exn = false
    ∧ invEvents (exec envC7 20 (Call.cSet (exec envC7 20 (Call.cSet s0C7
        (RRef.rwrap (RRef.rraw 0) 14) "x" (Val.vnat 99))).st
        (RRef.rwrap (RRef.rraw 0) 15) "x" (Val.vnat 5))).log
      = [1] ++ 2 :: [3] :=
  trigger_exception_semantics envC7 20 20 s0C7 0 14 15 12 2 "x"
    (Val.vnat 99) (Val.vnat 5) [1] [3]
    (by decide) (by decide) (by decide)
    (by decide) (by decide) (by decide) (by decide) (by decide) (by decide)
    (by decide) (by decide)

/-- C4 witness: the theorem applied to the concrete throwing
registration of effect 7, with a read of property `p` of raw object 1
and a write of a new value to it. -/
theorem effect_throw_slot_stuck_witness :
    (effect envC4 5 s0C4 7).st.active = some 7
    ∧ depsGet (readRef (effect envC4 5 s0C4 7).st
        (RRef.rwrap (RRef.rraw 1) 42) "p").1.deps (Tgt.traw 1) "p" = [7]
    ∧ Ev.inv 7 ∈ (exec envC4 5 (Call.cSet (readRef (effect envC4 5 s0C4 7).st
        (RRef.rwrap (RRef.rraw 1) 42) "p").1
        (RRef.rwrap (RRef.rraw 1) 43) "p" (Val.vnat 1))).log :=
  effect_throw_slot_stuck envC4 5 5 s0C4 7 1 42 43 "p" (Val.vnat 1)
    (by decide) (by decide) (by decide) (by decide)

end MiniVue
